import Mathlib

/-!
# cabot `runwindow.js`: the run-window schedule widget

A shallow embedding of `cabot/static/arachnys/js/runwindow.js`:

* JavaScript strings are sequences of UTF-16 code units (`JSString`);
* the built-ins the script calls (`String.prototype.split`, `Array.prototype.join`,
  `Array.prototype.includes`, `JSON.stringify`, `JSON.parse`, `RegExp.prototype.exec` for the one
  pattern of the script, property access, `ToBoolean`) follow ECMA-262;
* the DOM subtree under `$(e).parent()` is a list of named controls, and the jQuery calls
  (`find`, `attr`, `val`, `is`, `map`, `each`, `parent`, `addClass`, `removeClass`) act on the
  controls a selector matches, by name, as the script's selectors do;
* `runwindow_load` and `runwindow_save` are transcribed statement by statement.
-/

namespace Runwindow

/-! ## Strings -/

/-- A JavaScript string: its UTF-16 code units, in order. -/
abbrev JSString := List Nat

/-- The code units of a string literal of the script (all literals of the script are ASCII). -/
def lit (s : String) : JSString := s.toList.map Char.toNat

/-- The method `String.prototype.split(sep)` for a separator of one code unit: the pieces between
the occurrences of `sep`; the empty string splits into one empty piece. -/
def split (sep : Nat) : JSString → List JSString
  | [] => [[]]
  | c :: cs =>
    if c = sep then [] :: split sep cs
    else
      match split sep cs with
      | piece :: pieces => (c :: piece) :: pieces
      | [] => [[c]]

/-- The method `Array.prototype.join(sep)` on an array of strings. -/
def join (sep : JSString) : List JSString → JSString
  | [] => []
  | [x] => x
  | x :: y :: rest => x ++ sep ++ join sep (y :: rest)

/-- The method `Array.prototype.includes(x)` on an array of strings, where `x` is a string or
`undefined` (`none`): `undefined` is the same value as no string. -/
def includes (xs : List JSString) : Option JSString → Bool
  | none => false
  | some x => decide (x ∈ xs)

/-! ## The pattern `/BYDAY=(([A-Z]{2},?)*)/` -/

/-- The character class `[A-Z]`. -/
def isUpper (c : Nat) : Bool := decide (65 ≤ c) && decide (c ≤ 90)

/-- One iteration `[A-Z]{2},?` at the front of the input: the text it matches (the comma is
taken when it is there, the quantifier being greedy) and the input after it. -/
def dayToken : JSString → Option (JSString × JSString)
  | a :: b :: c :: rest =>
    if isUpper a && isUpper b then
      if c = 44 then some ([a, b, c], rest) else some ([a, b], c :: rest)
    else none
  | [a, b] => if isUpper a && isUpper b then some ([a, b], []) else none
  | _ => none

/-- The group `(([A-Z]{2},?)*)` at the front of the input, iterated greedily at most `fuel`
times: the text of group 1. Nothing follows the star in the pattern, so the first path the
backtracking matcher tries (every iteration that matches is taken) is the match. -/
def dayTokens : Nat → JSString → JSString
  | 0, _ => []
  | fuel + 1, s =>
    match dayToken s with
    | some (tok, rest) => tok ++ dayTokens fuel rest
    | none => []

/-- Group 1 of the pattern's match starting exactly at the front of the input, when the literal
`BYDAY=` stands there. Every iteration consumes two code units at least, so the length of the
input is fuel enough. -/
def matchHere (s : JSString) : Option JSString :=
  if (lit "BYDAY=").isPrefixOf s then
    some (dayTokens s.length (s.drop 6))
  else none

/-- The expression `/BYDAY=(([A-Z]{2},?)*)/.exec(s)`, reduced to group 1 of the result: the match
is tried at each position from the left and the first position that matches wins; `none` is the
`null` that `exec` returns when no position matches. -/
def execBYDAY : JSString → Option JSString
  | [] => matchHere []
  | c :: rest =>
    match matchHere (c :: rest) with
    | some g => some g
    | none => execBYDAY rest

/-! ## `JSON.stringify` -/

/-- A hexadecimal digit, lower case, as `JSON.stringify` writes it. -/
def hexDigit (d : Nat) : Nat := if d < 10 then 48 + d else 87 + d

/-- The abstract operation UnicodeEscape: backslash, `u` and four hexadecimal digits. -/
def UnicodeEscape (c : Nat) : JSString :=
  [92, 117, hexDigit (c / 4096 % 16), hexDigit (c / 256 % 16), hexDigit (c / 16 % 16),
    hexDigit (c % 16)]

/-- A leading (high) surrogate code unit. -/
def isLeadingSurrogate (c : Nat) : Bool := decide (0xD800 ≤ c) && decide (c ≤ 0xDBFF)

/-- A trailing (low) surrogate code unit. -/
def isTrailingSurrogate (c : Nat) : Bool := decide (0xDC00 ≤ c) && decide (c ≤ 0xDFFF)

/-- The body of QuoteJSONString (ECMA-262, well-formed `JSON.stringify`): the two-character
escapes for backspace, tab, line feed, form feed, carriage return, the double quote and the
backslash; a `\uXXXX` escape for the other code units below U+0020 and for a surrogate that is
not part of a pair; every other code unit as it is. `paired` says that the code unit before was
a leading surrogate written as the first half of a pair. -/
def quoteChars : Bool → JSString → JSString
  | _, [] => []
  | paired, c :: rest =>
    if c = 8 then [92, 98] ++ quoteChars false rest
    else if c = 9 then [92, 116] ++ quoteChars false rest
    else if c = 10 then [92, 110] ++ quoteChars false rest
    else if c = 12 then [92, 102] ++ quoteChars false rest
    else if c = 13 then [92, 114] ++ quoteChars false rest
    else if c = 34 then [92, 34] ++ quoteChars false rest
    else if c = 92 then [92, 92] ++ quoteChars false rest
    else if c < 32 then UnicodeEscape c ++ quoteChars false rest
    else if isLeadingSurrogate c then
      if (rest.head?.map isTrailingSurrogate).getD false then c :: quoteChars true rest
      else UnicodeEscape c ++ quoteChars false rest
    else if isTrailingSurrogate c then
      if paired then c :: quoteChars false rest
      else UnicodeEscape c ++ quoteChars false rest
    else c :: quoteChars false rest

/-- The abstract operation QuoteJSONString: the escaped body between two double quotes. -/
def QuoteJSONString (s : JSString) : JSString := [34] ++ quoteChars false s ++ [34]

/-- The properties of an object literal whose values are strings or `undefined`, as
SerializeJSONObject lists them: `undefined` properties are left out. -/
def serializeProperties : List (JSString × Option JSString) → List JSString
  | [] => []
  | (_, none) :: rest => serializeProperties rest
  | (k, some v) :: rest => (QuoteJSONString k ++ [58] ++ QuoteJSONString v) :: serializeProperties rest

/-- SerializeJSONObject for an object whose property values are strings or `undefined`. -/
def SerializeJSONObject (props : List (JSString × Option JSString)) : JSString :=
  [123] ++ join [44] (serializeProperties props) ++ [125]

/-- The call `JSON.stringify(val)` for `val` an array of objects whose property values are strings
or `undefined` (the only shape `runwindow_save` passes): SerializeJSONArray over
SerializeJSONObject, no gap. -/
def JSON.stringify (records : List (List (JSString × Option JSString))) : JSString :=
  [91] ++ join [44] (records.map SerializeJSONObject) ++ [93]

/-! ## JavaScript values and `JSON.parse` -/

/-- The values the script handles: `undefined` and what `JSON.parse` returns. A number is kept as
the decimal numeral that was read: its sign, the digits of its integer and fraction parts as one
natural number, and the power of ten that scales them (`mantissa * 10 ^ exponent`). -/
inductive JSValue where
  | undefined
  | null
  | bool (b : Bool)
  | number (negative : Bool) (mantissa : Nat) (exponent : Int)
  | string (s : JSString)
  | array (items : List JSValue)
  | object (props : List (JSString × JSValue))

/-- JSON white space: space, tab, line feed, carriage return. -/
def isWhitespace (c : Nat) : Bool := c = 32 || c = 9 || c = 10 || c = 13

/-- The input after its leading white space. -/
def skipWS : JSString → JSString
  | [] => []
  | c :: rest => if isWhitespace c then skipWS rest else c :: rest

/-- The value of a hexadecimal digit, upper or lower case. -/
def hexValue (c : Nat) : Option Nat :=
  if 48 ≤ c ∧ c ≤ 57 then some (c - 48)
  else if 97 ≤ c ∧ c ≤ 102 then some (c - 87)
  else if 65 ≤ c ∧ c ≤ 70 then some (c - 55)
  else none

/-- The code unit of `\uXXXX` for the four digits after the `u`. -/
def hex4 (a b c d : Nat) : Option Nat :=
  match hexValue a, hexValue b, hexValue c, hexValue d with
  | some x, some y, some z, some w => some (((x * 16 + y) * 16 + z) * 16 + w)
  | _, _, _, _ => none

/-- The code unit a two-character escape stands for, by the character after the backslash. -/
def unescape (c : Nat) : Option Nat :=
  if c = 34 then some 34
  else if c = 92 then some 92
  else if c = 47 then some 47
  else if c = 98 then some 8
  else if c = 102 then some 12
  else if c = 110 then some 10
  else if c = 114 then some 13
  else if c = 116 then some 9
  else none

/-- A parsed code unit put in front of the rest of a parsed string. -/
def pushChar (c : Nat) : Option (JSString × JSString) → Option (JSString × JSString)
  | some (s, rest) => some (c :: s, rest)
  | none => none

/-- A JSON string after its opening quote: the string's code units and the input after the
closing quote. A code unit below U+0020, an unknown escape or a missing closing quote is a
syntax error (`none`). -/
def parseChars : JSString → Option (JSString × JSString)
  | [] => none
  | c :: rest =>
    if c = 34 then some ([], rest)
    else if c = 92 then
      match rest with
      | [] => none
      | e :: rest1 =>
        if e = 117 then
          match rest1 with
          | h1 :: h2 :: h3 :: h4 :: rest2 =>
            match hex4 h1 h2 h3 h4 with
            | some v => pushChar v (parseChars rest2)
            | none => none
          | _ => none
        else
          match unescape e with
          | some v => pushChar v (parseChars rest1)
          | none => none
    else if c < 32 then none
    else pushChar c (parseChars rest)

/-- The decimal digits at the front of the input (their values) and the input after them. -/
def takeDigits : JSString → List Nat × JSString
  | [] => ([], [])
  | c :: rest =>
    if 48 ≤ c ∧ c ≤ 57 then ((c - 48) :: (takeDigits rest).1, (takeDigits rest).2)
    else ([], c :: rest)

/-- The natural number written by a list of decimal digits. -/
def digitsValue (ds : List Nat) : Nat := ds.foldl (fun acc d => acc * 10 + d) 0

/-- The integer part of a JSON number: `0`, or a digit from 1 to 9 and then any digits. -/
def parseInt : JSString → Option (List Nat × JSString)
  | [] => none
  | c :: rest =>
    if c = 48 then some ([0], rest)
    else if 49 ≤ c ∧ c ≤ 57 then some ((c - 48) :: (takeDigits rest).1, (takeDigits rest).2)
    else none

/-- The optional fraction of a JSON number: a dot and one digit at least. -/
def parseFrac : JSString → Option (List Nat × JSString)
  | [] => some ([], [])
  | c :: rest =>
    if c = 46 then
      if (takeDigits rest).1 = [] then none else some (takeDigits rest)
    else some ([], c :: rest)

/-- The digits of an exponent, after its sign: one digit at least. -/
def parseExpDigits (negative : Bool) (s : JSString) : Option (Int × JSString) :=
  if (takeDigits s).1 = [] then none
  else
    some (if negative then -((digitsValue (takeDigits s).1 : Nat) : Int)
      else ((digitsValue (takeDigits s).1 : Nat) : Int), (takeDigits s).2)

/-- The optional exponent of a JSON number: `e` or `E`, an optional sign, one digit at least. -/
def parseExp : JSString → Option (Int × JSString)
  | [] => some (0, [])
  | c :: rest =>
    if c = 101 ∨ c = 69 then
      match rest with
      | [] => none
      | d :: rest1 =>
        if d = 45 then parseExpDigits true rest1
        else if d = 43 then parseExpDigits false rest1
        else parseExpDigits false (d :: rest1)
    else some (0, c :: rest)

/-- A JSON number after its optional minus sign. -/
def parseUnsigned (negative : Bool) (s : JSString) : Option (JSValue × JSString) :=
  match parseInt s with
  | none => none
  | some (intDigits, s1) =>
    match parseFrac s1 with
    | none => none
    | some (fracDigits, s2) =>
      match parseExp s2 with
      | none => none
      | some (e, s3) =>
        some (JSValue.number negative (digitsValue (intDigits ++ fracDigits))
          (e - (fracDigits.length : Int)), s3)

/-- The elements of a non-empty JSON array after its opening bracket, `parseValue` being the
parser of one value: values separated by commas, up to the closing bracket. -/
def parseElements (parseValue : JSString → Option (JSValue × JSString)) :
    Nat → JSString → Option (List JSValue × JSString)
  | 0, _ => none
  | fuel + 1, s =>
    match parseValue s with
    | none => none
    | some (v, rest) =>
      match skipWS rest with
      | [] => none
      | c :: rest1 =>
        if c = 44 then
          match parseElements parseValue fuel rest1 with
          | some (vs, rest2) => some (v :: vs, rest2)
          | none => none
        else if c = 93 then some ([v], rest1)
        else none

/-- The members of a non-empty JSON object after its opening brace, `parseValue` being the
parser of one value: `string : value` pairs separated by commas, up to the closing brace. -/
def parseMembers (parseValue : JSString → Option (JSValue × JSString)) :
    Nat → JSString → Option (List (JSString × JSValue) × JSString)
  | 0, _ => none
  | fuel + 1, s =>
    match skipWS s with
    | [] => none
    | q :: s1 =>
      if q = 34 then
        match parseChars s1 with
        | none => none
        | some (key, s2) =>
          match skipWS s2 with
          | [] => none
          | colon :: s3 =>
            if colon = 58 then
              match parseValue s3 with
              | none => none
              | some (v, s4) =>
                match skipWS s4 with
                | [] => none
                | c :: s5 =>
                  if c = 44 then
                    match parseMembers parseValue fuel s5 with
                    | some (kvs, s6) => some ((key, v) :: kvs, s6)
                    | none => none
                  else if c = 125 then some ([(key, v)], s5)
                  else none
            else none
      else none

/-- One JSON value at the front of the input, after optional white space: the value and the
input after it, or `none` for a syntax error. `fuel` bounds the nesting and the number of
elements read; see `JSON.parse`. -/
def parseValue : Nat → JSString → Option (JSValue × JSString)
  | 0, _ => none
  | fuel + 1, s =>
    match skipWS s with
    | [] => none
    | c :: rest =>
      if c = 123 then
        match skipWS rest with
        | [] => none
        | d :: rest1 =>
          if d = 125 then some (JSValue.object [], rest1)
          else
            match parseMembers (parseValue fuel) fuel rest with
            | some (kvs, rest2) => some (JSValue.object kvs, rest2)
            | none => none
      else if c = 91 then
        match skipWS rest with
        | [] => none
        | d :: rest1 =>
          if d = 93 then some (JSValue.array [], rest1)
          else
            match parseElements (parseValue fuel) fuel rest with
            | some (vs, rest2) => some (JSValue.array vs, rest2)
            | none => none
      else if c = 34 then
        match parseChars rest with
        | some (str, rest1) => some (JSValue.string str, rest1)
        | none => none
      else if c = 45 then parseUnsigned true rest
      else if 48 ≤ c ∧ c ≤ 57 then parseUnsigned false (c :: rest)
      else if (lit "true").isPrefixOf (c :: rest) then some (JSValue.bool true, rest.drop 3)
      else if (lit "false").isPrefixOf (c :: rest) then some (JSValue.bool false, rest.drop 4)
      else if (lit "null").isPrefixOf (c :: rest) then some (JSValue.null, rest.drop 3)
      else none

/-- The call `JSON.parse(text)`: one JSON value with optional white space around it and nothing
after; `none` is the `SyntaxError` it throws. Every nested value and every element read consumes
a code unit of the text, so the length of the text (plus one) is fuel enough. -/
def JSON.parse (text : JSString) : Option JSValue :=
  match parseValue (text.length + 1) text with
  | none => none
  | some (v, rest) => if skipWS rest = [] then some v else none

/-- The abstract operation ToBoolean on a number read by `JSON.parse`: the numeral rounds to the
Number zero exactly when it is zero or at most `2 ^ (-1075)`, half the least positive Number
(round to nearest, ties to even). -/
def roundsToZero (mantissa : Nat) (exponent : Int) : Bool :=
  decide (mantissa = 0) ||
    (decide (exponent < 0) && decide (mantissa * 2 ^ 1075 ≤ 10 ^ (-exponent).toNat))

/-- The abstract operation ToBoolean (`!!data`, `!data`). -/
def ToBoolean : JSValue → Bool
  | JSValue.undefined => false
  | JSValue.null => false
  | JSValue.bool b => b
  | JSValue.number _ m e => !roundsToZero m e
  | JSValue.string s => !s.isEmpty
  | JSValue.array _ => true
  | JSValue.object _ => true

/-- The errors the script can raise. -/
inductive JSError where
  | SyntaxError
  | TypeError
deriving DecidableEq

/-- How a call ends: normally with a result, by throwing, or outside this embedding
(`unsupported`: the call would turn a number, an array or an object into a string, which is not
modelled). -/
inductive Completion (α : Type) where
  | normal (result : α)
  | throw (error : JSError)
  | unsupported
deriving DecidableEq

/-- Sequencing of completions: what follows runs on a normal result only. -/
def Completion.bind {α β : Type} (c : Completion α) (f : α → Completion β) : Completion β :=
  match c with
  | Completion.normal a => f a
  | Completion.throw err => Completion.throw err
  | Completion.unsupported => Completion.unsupported

/-- The own property `key` of an object read by `JSON.parse`, or `undefined`: of several members
with the same name the last one is the property. -/
def getOwn (key : JSString) (props : List (JSString × JSValue)) : JSValue :=
  match props.reverse.find? (fun kv => decide (kv.1 = key)) with
  | some kv => kv.2
  | none => JSValue.undefined

/-- The expression `data[0]`: a `TypeError` on `undefined` and `null`, the first element of an
array, the property `0` of an object, the first code unit of a string, and `undefined` where
there is none and on numbers and booleans. -/
def JSValue.index0 : JSValue → Completion JSValue
  | JSValue.undefined => Completion.throw JSError.TypeError
  | JSValue.null => Completion.throw JSError.TypeError
  | JSValue.array items => Completion.normal (items.head?.getD JSValue.undefined)
  | JSValue.object props => Completion.normal (getOwn (lit "0") props)
  | JSValue.string [] => Completion.normal JSValue.undefined
  | JSValue.string (c :: _) => Completion.normal (JSValue.string [c])
  | JSValue.bool _ => Completion.normal JSValue.undefined
  | JSValue.number _ _ _ => Completion.normal JSValue.undefined

/-- The expression `record[key]` for the keys of the script (`start_time`, `end_time`, `rrule`:
no array index, no member of a built-in prototype): a `TypeError` on `undefined` and `null`, the
own property of an object, `undefined` on every other value. -/
def JSValue.getProp (key : JSString) : JSValue → Completion JSValue
  | JSValue.undefined => Completion.throw JSError.TypeError
  | JSValue.null => Completion.throw JSError.TypeError
  | JSValue.object props => Completion.normal (getOwn key props)
  | _ => Completion.normal JSValue.undefined

/-- The abstract operation ToString, as `exec` applies it to its argument, on the values that
have no number in them and no object to convert. -/
def ToString : JSValue → Completion JSString
  | JSValue.undefined => Completion.normal (lit "undefined")
  | JSValue.null => Completion.normal (lit "null")
  | JSValue.bool true => Completion.normal (lit "true")
  | JSValue.bool false => Completion.normal (lit "false")
  | JSValue.string s => Completion.normal s
  | _ => Completion.unsupported

/-- The string that jQuery's `.val(value)` stores in a text control: `null` and `undefined`
become the empty string, a string is stored as it is, a boolean by its name. -/
def valString : JSValue → Completion JSString
  | JSValue.undefined => Completion.normal []
  | JSValue.null => Completion.normal []
  | JSValue.string s => Completion.normal s
  | v => ToString v

/-! ## The DOM under `$(e).parent()` and the jQuery calls -/

/-- Modelled from the spec: the template that declares the widget's controls is not among the
sources, so the shape of the markup follows the spec's data model (an enable toggle, two time
fields that hold strings, seven day checkboxes, all found by name). One named control under
`$(e).parent()`: its tag and `name`, its `value`, whether it is checked, whether it carries the
`disabled` attribute, and for its parent element (each day checkbox has a parent of its own, the
button it sits in) whether that carries `disabled` and the class `active`. A control holds the
string it is given and gives it back as it is. The attribute `checked` is identified with the
checked state, which is what `.attr('checked', ...)` sets on a control the user has not touched
and what `:checked` reads. -/
structure Element where
  tag : JSString
  name : JSString
  value : JSString
  checked : Bool
  disabled : Bool
  parentDisabled : Bool
  parentActive : Bool
deriving DecidableEq

/-- The element `e` of the script, a `.runwindow-form` field: its `name`, its `value` (the
serialized schedule, submitted with the form) and the other controls under its parent, in
document order. The name of `e` is shorter than every name the script's selectors ask for, so
`e` itself is never among the controls a selector matches. -/
structure RunwindowForm where
  name : JSString
  value : JSString
  controls : List Element
deriving DecidableEq

/-- The selector `[name=n]`. -/
def nameIs (n : JSString) (el : Element) : Bool := decide (el.name = n)

/-- The selector `[name^=p]`. -/
def nameStartsWith (p : JSString) (el : Element) : Bool := p.isPrefixOf el.name

/-- The type selector `input`. -/
def isInput (el : Element) : Bool := decide (el.tag = lit "input")

/-- The selector `[name=N-start], [name=N-end], [name^=N-day-]`. -/
def isScheduling (N : JSString) (el : Element) : Bool :=
  nameIs (N ++ lit "-start") el || nameIs (N ++ lit "-end") el ||
    nameStartsWith (N ++ lit "-day-") el

/-- What `.attr('disabled', useSchedule ? null : 'true')` does to one control, the set it is
called on being the controls matched by `[name=N-start], [name=N-end], [name^=N-day-]` and the
parents of the controls matched by `[name^=N-day-]`. -/
def disableOne (N : JSString) (useSchedule : Bool) (el : Element) : Element :=
  let el1 := if isScheduling N el then { el with disabled := !useSchedule } else el
  if nameStartsWith (N ++ lit "-day-") el then { el1 with parentDisabled := !useSchedule }
  else el1

/-- The call `root.find('[name=N-start], [name=N-end], [name^=N-day-]')
.add(root.find('[name^=N-day-]').parent()).attr('disabled', useSchedule ? null : 'true')`: the
attribute is removed from (schedule in use) or set on the time fields, the day checkboxes and
the parents of the day checkboxes. -/
def attrDisabled (N : JSString) (useSchedule : Bool) (root : List Element) : List Element :=
  root.map (disableOne N useSchedule)

/-- The call `root.find(sel).attr('checked', state ? 'checked' : null)`. -/
def attrChecked (sel : Element → Bool) (state : Bool) (root : List Element) : List Element :=
  root.map fun el => if sel el then { el with checked := state } else el

/-- The call `root.find(sel).val(v)`: every control matched gets the value. -/
def setVal (sel : Element → Bool) (v : JSString) (root : List Element) : List Element :=
  root.map fun el => if sel el then { el with value := v } else el

/-- The call `root.find(sel).val()`: the value of the first control matched, `undefined` when
none is. (jQuery drops carriage returns from the value it reads; a one-line input holds
none.) -/
def getVal (sel : Element → Bool) (root : List Element) : Option JSString :=
  (root.find? sel).map fun el => el.value

/-- The call `root.find(sel).is(':checked')`: some control matched is checked. -/
def isChecked (sel : Element → Bool) (root : List Element) : Bool :=
  root.any fun el => sel el && el.checked

/-- The expression `dow.name.split('-')[2]`: the third piece of the control's name, `undefined`
when the name has fewer than three pieces. -/
def dayOf (dow : Element) : Option JSString := (split 45 dow.name)[2]?

/-- The loop `root.find('[name^=N-day-]').each(...)` of `runwindow_load`: each day checkbox is
checked, and its parent given the class `active`, exactly when `enabledDays` includes the third
piece of its name; otherwise it is unchecked and the class removed. -/
def eachDay (N : JSString) (enabledDays : List JSString) (root : List Element) : List Element :=
  root.map fun dow =>
    if nameStartsWith (N ++ lit "-day-") dow then
      { dow with checked := includes enabledDays (dayOf dow),
                 parentActive := includes enabledDays (dayOf dow) }
    else dow

/-! ## The script -/

/-- The expression `value && JSON.parse(value)`: an absent or empty `value` is falsy and is the
result itself; any other string is parsed, and a `SyntaxError` of `JSON.parse` is thrown on. -/
def dataOf (value : Option JSString) : Completion JSValue :=
  match value with
  | none => Completion.normal JSValue.undefined
  | some v =>
    if v = [] then Completion.normal (JSValue.string [])
    else
      match JSON.parse v with
      | some data => Completion.normal data
      | none => Completion.throw JSError.SyntaxError

/-- The function `runwindow_load(value, e)`: load the value string into the controls of `e`.
`value` is `none` for an absent (`undefined`, `null`) argument. -/
def runwindow_load (value : Option JSString) (e : RunwindowForm) : Completion RunwindowForm :=
  -- console.log("loading: " + e.value);   (no effect on the page)
  -- var data = value && JSON.parse(value);
  (dataOf value).bind fun data =>
  -- var useSchedule = !!data;
  let useSchedule := ToBoolean data
  -- root.find(...).add(...).attr('disabled', useSchedule ? null : 'true');
  let root1 := attrDisabled e.name useSchedule e.controls
  -- root.find('input[name=N-use-schedule]').attr('checked', useSchedule ? 'checked' : null);
  let root2 :=
    attrChecked (fun el => isInput el && nameIs (e.name ++ lit "-use-schedule") el) useSchedule
      root1
  -- if (!data) return;
  if !ToBoolean data then Completion.normal { e with controls := root2 }
  else
    -- start_time = data[0]['start_time']; end_time = ...; rrule = ...;
    data.index0.bind fun d0 =>
    (d0.getProp (lit "start_time")).bind fun start_time =>
    data.index0.bind fun d1 =>
    (d1.getProp (lit "end_time")).bind fun end_time =>
    data.index0.bind fun d2 =>
    (d2.getProp (lit "rrule")).bind fun rrule =>
    -- root.find('[name=N-start]').val(start_time); root.find('[name=N-end]').val(end_time);
    (valString start_time).bind fun startText =>
    let root3 := setVal (nameIs (e.name ++ lit "-start")) startText root2
    (valString end_time).bind fun endText =>
    let root4 := setVal (nameIs (e.name ++ lit "-end")) endText root3
    -- var enabledDays = /BYDAY=(([A-Z]{2},?)*)/.exec(rrule)[1].split(',');
    (ToString rrule).bind fun rule =>
    match execBYDAY rule with
    | none => Completion.throw JSError.TypeError
    | some group1 =>
      let enabledDays := split 44 group1
      -- root.find('[name^=N-day-]').each(...)
      Completion.normal { e with controls := eachDay e.name enabledDays root4 }

/-- The function `runwindow_save(e)`: serialize the values of the controls of `e` into
`e.value`. -/
def runwindow_save (e : RunwindowForm) : RunwindowForm :=
  let root := e.controls
  -- var useSchedule = root.find('input[name=N-use-schedule]').is(':checked');
  let useSchedule :=
    isChecked (fun el => isInput el && nameIs (e.name ++ lit "-use-schedule") el) root
  -- var startTime = root.find('input[name=N-start]').val(); var endTime = ...
  let startTime := getVal (fun el => isInput el && nameIs (e.name ++ lit "-start") el) root
  let endTime := getVal (fun el => isInput el && nameIs (e.name ++ lit "-end") el) root
  -- var daysOfWeek = root.find('input[name^=N-day-]:checked').map(...).get();
  let daysOfWeek :=
    (root.filter fun el =>
      isInput el && nameStartsWith (e.name ++ lit "-day-") el && el.checked).filterMap dayOf
  -- root.find(...).add(...).attr('disabled', useSchedule ? null : 'true');
  let root1 := attrDisabled e.name useSchedule root
  if !useSchedule then
    -- e.value = ''; console.log('[no schedule]');
    { e with value := [], controls := root1 }
  else
    -- var val = [{'start_time': startTime, 'end_time': endTime,
    --             'rrule': 'FREQ=WEEKLY;INTERVAL=1;BYDAY=' + daysOfWeek.join(',')}];
    -- console.log(val); e.value = JSON.stringify(val);
    { e with
      value :=
        JSON.stringify
          [[(lit "start_time", startTime), (lit "end_time", endTime),
            (lit "rrule", some (lit "FREQ=WEEKLY;INTERVAL=1;BYDAY=" ++ join (lit ",") daysOfWeek))]],
      controls := root1 }

/-! ## The widget as the spec describes it -/

/-- Seven values, one for each day code, in the order the checkboxes are declared. -/
structure Week (α : Type) where
  mo : α
  tu : α
  we : α
  th : α
  fr : α
  sa : α
  su : α
deriving DecidableEq

/-- The seven values in checkbox order. -/
def Week.toList {α : Type} (w : Week α) : List α := [w.mo, w.tu, w.we, w.th, w.fr, w.sa, w.su]

/-- A function applied to each of the seven values. -/
def Week.map {α β : Type} (f : α → β) (w : Week α) : Week β :=
  ⟨f w.mo, f w.tu, f w.we, f w.th, f w.fr, f w.sa, f w.su⟩

/-- The day codes `MO` to `SU`. -/
def dayCodes : Week JSString :=
  ⟨lit "MO", lit "TU", lit "WE", lit "TH", lit "FR", lit "SA", lit "SU"⟩

/-- The state of one day checkbox and of its parent. -/
structure DayBox where
  checked : Bool
  disabled : Bool
  parentDisabled : Bool
  parentActive : Bool
deriving DecidableEq

/-- The whole state of one widget instance: the serialized value in the hidden field, the enable
toggle, the two time fields and the seven day checkboxes, with their `disabled` flags and the
`active` markers. -/
structure Widget where
  value : JSString
  useSchedule : Bool
  startTime : JSString
  startDisabled : Bool
  endTime : JSString
  endDisabled : Bool
  days : Week DayBox
deriving DecidableEq

/-- The UIState of the spec: enable toggle, start and end time fields, seven day checkboxes. -/
structure UIState where
  enableToggle : Bool
  startTime : JSString
  endTime : JSString
  days : Week Bool
deriving DecidableEq

/-- The UIState of a widget. -/
def Widget.ui (w : Widget) : UIState :=
  ⟨w.useSchedule, w.startTime, w.endTime, w.days.map fun d => d.checked⟩

/-- The day codes of the checked checkboxes, in checkbox order. -/
def checkedCodes (days : Week Bool) : List JSString :=
  ((dayCodes.toList.zip days.toList).filter fun cd => cd.2).map fun cd => cd.1

/-- The scheduling controls are all disabled: both time fields, every day checkbox and its
parent. -/
def Widget.allDisabled (w : Widget) : Bool :=
  w.startDisabled && w.endDisabled &&
    w.days.toList.all fun d => d.disabled && d.parentDisabled

/-- The scheduling controls are all enabled. -/
def Widget.allEnabled (w : Widget) : Bool :=
  !w.startDisabled && !w.endDisabled &&
    w.days.toList.all fun d => !d.disabled && !d.parentDisabled

/-- An `input` control with the given name. -/
def input (name value : JSString) (checked disabled parentDisabled parentActive : Bool) :
    Element :=
  ⟨lit "input", name, value, checked, disabled, parentDisabled, parentActive⟩

/-- The checkbox of one day: the input named `N-day-<code>`. -/
def dayInput (N : JSString) (cd : JSString × DayBox) : Element :=
  input (N ++ (lit "-day-" ++ cd.1)) (lit "on") cd.2.checked cd.2.disabled cd.2.parentDisabled
    cd.2.parentActive

/-- Modelled from the spec: the template is not among the sources; by the naming contract of the
spec a widget instance named `N` has the sibling controls `N-use-schedule`, `N-start`, `N-end`
and `N-day-<code>` for each of the seven day codes. The element `e` and the controls under its
parent for a widget in state `w`. -/
def render (N : JSString) (w : Widget) : RunwindowForm :=
  { name := N
    value := w.value
    controls :=
      [ input (N ++ lit "-use-schedule") (lit "on") w.useSchedule false false false,
        input (N ++ lit "-start") w.startTime false w.startDisabled false false,
        input (N ++ lit "-end") w.endTime false w.endDisabled false false ] ++
      (dayCodes.toList.zip w.days.toList).map (dayInput N) }

/-! ## The script's effect on a widget, in closed form -/

/-- The third piece of the name `N-day-<code>`, whatever `N` is. -/
def dayPiece (N code : JSString) : Option JSString := (split 45 (N ++ (lit "-day-" ++ code)))[2]?

/-- The seven day checkboxes of a widget with their codes. -/
def Widget.dayList (w : Widget) : List (JSString × DayBox) := dayCodes.toList.zip w.days.toList

/-- The array `daysOfWeek` that `runwindow_save` computes for a widget named `N`. -/
def daysOfWeek (N : JSString) (w : Widget) : List JSString :=
  (w.dayList.filter fun cd => cd.2.checked).filterMap fun cd => dayPiece N cd.1

/-- The value `runwindow_save` stores for a widget named `N`. -/
def savedValue (N : JSString) (w : Widget) : JSString :=
  if w.useSchedule then
    JSON.stringify
      [[(lit "start_time", some w.startTime), (lit "end_time", some w.endTime),
        (lit "rrule", some (lit "FREQ=WEEKLY;INTERVAL=1;BYDAY=" ++ join (lit ",") (daysOfWeek N w)))]]
  else []

/-- The widget after `runwindow_save`. -/
def saved (N : JSString) (w : Widget) : Widget :=
  { w with
    value := savedValue N w
    startDisabled := !w.useSchedule
    endDisabled := !w.useSchedule
    days := w.days.map fun d => { d with disabled := !w.useSchedule, parentDisabled := !w.useSchedule } }

/-- A day code as the pattern reads it: two letters from `A` to `Z`. -/
def isDayCode (c : JSString) : Prop := ∃ a b, c = [a, b] ∧ isUpper a = true ∧ isUpper b = true

/-- The widget after a `runwindow_load` that found no data: toggle off, scheduling controls
disabled, everything else as it was. -/
def unloaded (w : Widget) : Widget :=
  { w with
    useSchedule := false
    startDisabled := true
    endDisabled := true
    days := w.days.map fun d => { d with disabled := true, parentDisabled := true } }

/-- The widget named `N` after a `runwindow_load` that ran to its end with the time strings `s`
and `t` and the array `enabledDays`: toggle on, scheduling controls enabled, each day checkbox
checked and marked `active` exactly when `enabledDays` includes the third piece of its name. -/
def loaded (N s t : JSString) (enabledDays : List JSString) (w : Widget) : Widget :=
  { value := w.value
    useSchedule := true
    startTime := s
    startDisabled := false
    endTime := t
    endDisabled := false
    days := dayCodes.map fun c =>
      ⟨includes enabledDays (dayPiece N c), false, false, includes enabledDays (dayPiece N c)⟩ }

/-- The function `runwindow_load` on the widget named `N` in state `w`, from the parsed data on,
with the controls it leaves written as a widget state. -/
def loadedFrom (N : JSString) (w : Widget) (data : JSValue) : Completion RunwindowForm :=
  if !ToBoolean data then Completion.normal (render N (unloaded w))
  else
    data.index0.bind fun d0 =>
    (d0.getProp (lit "start_time")).bind fun start_time =>
    data.index0.bind fun d1 =>
    (d1.getProp (lit "end_time")).bind fun end_time =>
    data.index0.bind fun d2 =>
    (d2.getProp (lit "rrule")).bind fun rrule =>
    (valString start_time).bind fun startText =>
    (valString end_time).bind fun endText =>
    (ToString rrule).bind fun rule =>
    match execBYDAY rule with
    | none => Completion.throw JSError.TypeError
    | some group1 => Completion.normal (render N (loaded N startText endText (split 44 group1) w))

/-- A code unit that QuoteJSONString writes as it is: no control character, not the double
quote, not the backslash, no surrogate. -/
def isPlain (c : Nat) : Bool :=
  decide (32 ≤ c) && decide (c ≠ 34) && decide (c ≠ 92) && !isLeadingSurrogate c &&
    !isTrailingSurrogate c

/-- A day checkbox that is enabled, checked or not, with the `active` marker in step. -/
def dayBox (checked : Bool) : DayBox := ⟨checked, false, false, checked⟩

/-- The widget of the spec's `save` example: toggle on, 08:00 to 12:00, `TU` and `TH` checked. -/
def exampleOn : Widget :=
  { value := []
    useSchedule := true
    startTime := lit "08:00"
    startDisabled := false
    endTime := lit "12:00"
    endDisabled := false
    days := ⟨dayBox false, dayBox true, dayBox false, dayBox true, dayBox false, dayBox false,
      dayBox false⟩ }

/-- The same widget with the toggle off: the fields are still filled in and two days are still
checked. -/
def exampleOff : Widget := { exampleOn with useSchedule := false }

/-- The text of the spec's `load` example. -/
def exampleValue : JSString :=
  lit ("[\x7b\"start_time\":\"09:00\",\"end_time\":\"17:00\"," ++
    "\"rrule\":\"FREQ=WEEKLY;INTERVAL=1;BYDAY=MO,WE,FR\"\x7d]")

/-- A value of the stored format whose rule has no `BYDAY=` clause. -/
def exampleNoByday : JSString :=
  lit ("[\x7b\"start_time\":\"09:00\",\"end_time\":\"17:00\"," ++
    "\"rrule\":\"FREQ=WEEKLY;INTERVAL=1\"\x7d]")

/-- A widget in quite another state: toggle off, other times, every day checked, the scheduling
controls disabled, no `active` marker. -/
def exampleOther : Widget :=
  { value := []
    useSchedule := false
    startTime := lit "23:15"
    startDisabled := true
    endTime := []
    endDisabled := true
    days := ⟨⟨true, true, true, false⟩, ⟨true, true, true, false⟩, ⟨true, true, true, false⟩,
      ⟨true, true, true, false⟩, ⟨true, true, true, false⟩, ⟨true, true, true, false⟩,
      ⟨true, true, true, false⟩⟩ }

/-! # Theorems -/


/-! ## Names and selectors -/

theorem isPrefixOf_append_left (N a b : JSString) :
    (N ++ a).isPrefixOf (N ++ b) = a.isPrefixOf b := by
  induction N with
  | nil => rfl
  | cons c N ih => simp [List.isPrefixOf, ih]

@[simp] theorem isInput_mk (t n v : JSString) (c d pd pa : Bool) :
    isInput ⟨t, n, v, c, d, pd, pa⟩ = decide (t = lit "input") := rfl

@[simp] theorem nameIs_mk (N a b t v : JSString) (c d pd pa : Bool) :
    nameIs (N ++ a) ⟨t, N ++ b, v, c, d, pd, pa⟩ = decide (b = a) := by
  simp [nameIs]

@[simp] theorem nameStartsWith_mk (N a b t v : JSString) (c d pd pa : Bool) :
    nameStartsWith (N ++ a) ⟨t, N ++ b, v, c, d, pd, pa⟩ = a.isPrefixOf b := by
  simp [nameStartsWith, isPrefixOf_append_left]

@[simp] theorem dayOf_mk (t n v : JSString) (c d pd pa : Bool) :
    dayOf ⟨t, n, v, c, d, pd, pa⟩ = (split 45 n)[2]? := rfl

theorem attrDisabled_dayInputs (N : JSString) (u : Bool) (cds : List (JSString × DayBox)) :
    attrDisabled N u (cds.map (dayInput N)) =
      (cds.map fun cd => (cd.1, { cd.2 with disabled := !u, parentDisabled := !u })).map
        (dayInput N) := by
  simp [attrDisabled, disableOne, dayInput, isScheduling, lit, List.isPrefixOf, input]

theorem attrChecked_dayInputs (N : JSString) (u : Bool) (cds : List (JSString × DayBox)) :
    attrChecked (fun el => isInput el && nameIs (N ++ lit "-use-schedule") el) u
        (cds.map (dayInput N)) = cds.map (dayInput N) := by
  simp [attrChecked, dayInput, lit, input]

theorem setVal_start_dayInputs (N v : JSString) (cds : List (JSString × DayBox)) :
    setVal (nameIs (N ++ lit "-start")) v (cds.map (dayInput N)) = cds.map (dayInput N) := by
  simp [setVal, dayInput, lit, input]

theorem setVal_end_dayInputs (N v : JSString) (cds : List (JSString × DayBox)) :
    setVal (nameIs (N ++ lit "-end")) v (cds.map (dayInput N)) = cds.map (dayInput N) := by
  simp [setVal, dayInput, lit, input]

theorem eachDay_dayInputs (N : JSString) (en : List JSString) (cds : List (JSString × DayBox)) :
    eachDay N en (cds.map (dayInput N)) =
      (cds.map fun cd =>
        (cd.1, { cd.2 with checked := includes en (dayPiece N cd.1),
                           parentActive := includes en (dayPiece N cd.1) })).map (dayInput N) := by
  simp [eachDay, dayInput, lit, List.isPrefixOf, input, dayPiece, dayOf]

theorem isChecked_dayInputs (N : JSString) (cds : List (JSString × DayBox)) :
    isChecked (fun el => isInput el && nameIs (N ++ lit "-use-schedule") el)
      (cds.map (dayInput N)) = false := by
  induction cds with
  | nil => rfl
  | cons cd cds ih =>
    unfold isChecked at ih ⊢
    rw [List.map_cons, List.any_cons, ih]
    simp [dayInput, lit, input]

theorem daysOfWeek_dayInputs (N : JSString) (cds : List (JSString × DayBox)) :
    ((cds.map (dayInput N)).filter fun el =>
        isInput el && nameStartsWith (N ++ lit "-day-") el && el.checked).filterMap dayOf =
      (cds.filter fun cd => cd.2.checked).filterMap fun cd => dayPiece N cd.1 := by
  induction cds with
  | nil => rfl
  | cons cd cds ih =>
    simp only [List.map_cons, List.filter_cons]
    have h1 : (isInput (dayInput N cd) && nameStartsWith (N ++ lit "-day-") (dayInput N cd) &&
        (dayInput N cd).checked) = cd.2.checked := by
      simp [dayInput, lit, List.isPrefixOf, input]
    rw [h1]
    cases hc : cd.2.checked
    · simpa using ih
    · simp only [if_true, List.filterMap_cons, ih]
      rfl


/-! ## The script on a rendered widget -/

theorem dayList_map (f : DayBox → DayBox) (w : Widget) :
    (dayCodes.toList.zip (w.days.map f).toList) = w.dayList.map fun cd => (cd.1, f cd.2) := rfl

theorem render_controls (N : JSString) (w : Widget) :
    (render N w).controls =
      [ input (N ++ lit "-use-schedule") (lit "on") w.useSchedule false false false,
        input (N ++ lit "-start") w.startTime false w.startDisabled false false,
        input (N ++ lit "-end") w.endTime false w.endDisabled false false ] ++
      w.dayList.map (dayInput N) := rfl

theorem attrDisabled_append (N : JSString) (u : Bool) (l1 l2 : List Element) :
    attrDisabled N u (l1 ++ l2) = attrDisabled N u l1 ++ attrDisabled N u l2 := by
  simp [attrDisabled]

theorem attrDisabled_render (N : JSString) (u : Bool) (w : Widget) :
    attrDisabled N u (render N w).controls =
      (render N { w with
        startDisabled := !u
        endDisabled := !u
        days := w.days.map fun d => { d with disabled := !u, parentDisabled := !u } }).controls := by
  rw [render_controls, render_controls, attrDisabled_append, attrDisabled_dayInputs]
  simp only [Widget.dayList, dayList_map]
  congr 1
  simp [attrDisabled, disableOne, isScheduling, input, lit, List.isPrefixOf]

theorem save_render (N : JSString) (w : Widget) :
    runwindow_save (render N w) = render N (saved N w) := by
  have hu : isChecked (fun el => isInput el && nameIs (N ++ lit "-use-schedule") el)
      (render N w).controls = w.useSchedule := by
    rw [render_controls]
    unfold isChecked
    rw [List.any_append]
    have := isChecked_dayInputs N w.dayList
    unfold isChecked at this
    rw [this]
    simp [input, lit]
  have hs : getVal (fun el => isInput el && nameIs (N ++ lit "-start") el)
      (render N w).controls = some w.startTime := by
    rw [render_controls]
    simp [getVal, input, lit]
  have he : getVal (fun el => isInput el && nameIs (N ++ lit "-end") el)
      (render N w).controls = some w.endTime := by
    rw [render_controls]
    simp [getVal, input, lit]
  have hd : ((render N w).controls.filter fun el =>
      isInput el && nameStartsWith (N ++ lit "-day-") el && el.checked).filterMap dayOf =
      daysOfWeek N w := by
    rw [render_controls, List.filter_append, List.filterMap_append, daysOfWeek_dayInputs]
    simp [input, lit, List.isPrefixOf, daysOfWeek]
  have hname : (render N w).name = N := rfl
  unfold runwindow_save
  simp only [hname, hu, hs, he, hd, attrDisabled_render]
  cases h : w.useSchedule <;> simp [render, saved, savedValue, h]


/-! ## `split`, `join` and the pattern -/

theorem split_no_sep (sep : Nat) (a : JSString) (h : sep ∉ a) : split sep a = [a] := by
  induction a with
  | nil => rfl
  | cons c a ih =>
    simp only [List.mem_cons, not_or] at h
    have hc : c ≠ sep := fun e => h.1 e.symm
    simp [split, hc, ih h.2]

theorem split_append_sep (sep : Nat) (a b : JSString) (h : sep ∉ a) :
    split sep (a ++ sep :: b) = a :: split sep b := by
  induction a with
  | nil => simp [split]
  | cons c a ih =>
    simp only [List.mem_cons, not_or] at h
    have hc : c ≠ sep := fun e => h.1 e.symm
    simp [split, hc, ih h.2]

theorem dayPiece_eq (N code : JSString) (hN : 45 ∉ N) (hc : 45 ∉ code) :
    dayPiece N code = some code := by
  have h1 : N ++ (lit "-day-" ++ code) = N ++ 45 :: (lit "day" ++ 45 :: code) := by
    simp [lit]
  have h2 : (45 : Nat) ∉ lit "day" := by decide
  rw [dayPiece, h1, split_append_sep 45 N _ hN, split_append_sep 45 _ _ h2, split_no_sep 45 _ hc]
  rfl

theorem split_join (cs : List JSString) (hne : cs ≠ []) (h : ∀ c ∈ cs, 44 ∉ c) :
    split 44 (join [44] cs) = cs := by
  induction cs with
  | nil => exact absurd rfl hne
  | cons x rest ih =>
    cases rest with
    | nil => simpa [join] using split_no_sep 44 x (h x (List.mem_cons_self _ _))
    | cons y rest =>
      have hx := h x (List.mem_cons_self _ _)
      have ih2 := ih (by simp) (fun c hc => h c (List.mem_cons_of_mem _ hc))
      simp only [join, List.append_assoc, List.singleton_append]
      rw [split_append_sep 44 x _ hx, ih2]

theorem includes_split_join (cs : List JSString) (c : JSString) (hc : c ≠ [])
    (h : ∀ x ∈ cs, 44 ∉ x) :
    includes (split 44 (join [44] cs)) (some c) = decide (c ∈ cs) := by
  cases cs with
  | nil => simp [includes, join, split, hc]
  | cons x rest => rw [split_join _ (by simp) h]; rfl

theorem dayTokens_join (cs : List JSString) (h : ∀ c ∈ cs, isDayCode c) :
    ∀ fuel, cs.length ≤ fuel → dayTokens fuel (join [44] cs) = join [44] cs := by
  induction cs with
  | nil =>
    intro fuel _
    cases fuel <;> simp [dayTokens, join, dayToken]
  | cons x rest ih =>
    intro fuel hf
    obtain ⟨a, b, rfl, ha, hb⟩ := h x (List.mem_cons_self _ _)
    cases fuel with
    | zero => simp at hf
    | succ fuel =>
      cases rest with
      | nil =>
        cases fuel <;> simp [dayTokens, join, dayToken, ha, hb]
      | cons y rest =>
        have ih2 := ih (fun c hc => h c (List.mem_cons_of_mem _ hc)) fuel
          (by simp only [List.length_cons] at hf ⊢; omega)
        simp only [join, List.append_assoc, List.singleton_append, List.cons_append,
          List.nil_append] at ih2 ⊢
        simp [dayTokens, dayToken, ha, hb, ih2]

theorem length_join_ge (cs : List JSString) (h : ∀ c ∈ cs, isDayCode c) :
    cs.length ≤ (join [44] cs).length := by
  induction cs with
  | nil => simp
  | cons x rest ih =>
    obtain ⟨a, b, rfl, _, _⟩ := h x (List.mem_cons_self _ _)
    have ih2 := ih (fun c hc => h c (List.mem_cons_of_mem _ hc))
    cases rest with
    | nil => simp [join]
    | cons y rest =>
      simp only [join, List.length_append, List.length_cons, List.length_nil] at ih2 ⊢
      omega

theorem execBYDAY_rule (cs : List JSString) (h : ∀ c ∈ cs, isDayCode c) :
    execBYDAY (lit "FREQ=WEEKLY;INTERVAL=1;BYDAY=" ++ join (lit ",") cs) =
      some (join (lit ",") cs) := by
  have hfuel := dayTokens_join cs h ((join [44] cs).length + 1 + 1 + 1 + 1 + 1 + 1)
    (by have := length_join_ge cs h; omega)
  simp [lit, execBYDAY, matchHere, List.isPrefixOf]
  exact hfuel

/-- The pattern has a match exactly when the rule contains the text `BYDAY=`. -/
theorem execBYDAY_isSome_iff (r : JSString) :
    (execBYDAY r).isSome = true ↔ lit "BYDAY=" <:+: r := by
  induction r with
  | nil => 
    simp [execBYDAY, matchHere, lit, List.isPrefixOf]
  | cons c r ih =>
    rw [List.infix_cons_iff]
    unfold execBYDAY
    cases hm : matchHere (c :: r) with
    | some g =>
      simp only [Option.isSome_some, true_iff]
      left
      unfold matchHere at hm
      split at hm
      · rename_i hp
        exact List.isPrefixOf_iff_prefix.mp hp
      · exact absurd hm (by simp)
    | none =>
      simp only [ih]
      constructor
      · exact fun h => Or.inr h
      · rintro (h | h)
        · unfold matchHere at hm
          rw [if_pos (List.isPrefixOf_iff_prefix.mpr h)] at hm
          exact absurd hm (by simp)
        · exact h

theorem execBYDAY_eq_none_iff (r : JSString) :
    execBYDAY r = none ↔ ¬ lit "BYDAY=" <:+: r := by
  rw [← execBYDAY_isSome_iff]
  cases execBYDAY r <;> simp

/-! ## `JSON.parse` after `JSON.stringify` -/

theorem hexValue_hexDigit (d : Nat) (h : d < 16) : hexValue (hexDigit d) = some d := by
  interval_cases d <;> rfl

theorem hex4_UnicodeEscape (c : Nat) (h : c < 65536) :
    hex4 (hexDigit (c / 4096 % 16)) (hexDigit (c / 256 % 16)) (hexDigit (c / 16 % 16))
      (hexDigit (c % 16)) = some c := by
  unfold hex4
  rw [hexValue_hexDigit _ (Nat.mod_lt _ (by norm_num)),
    hexValue_hexDigit _ (Nat.mod_lt _ (by norm_num)),
    hexValue_hexDigit _ (Nat.mod_lt _ (by norm_num)),
    hexValue_hexDigit _ (Nat.mod_lt _ (by norm_num))]
  simp only [Option.some.injEq]
  omega

theorem parseChars_quote (rest : JSString) : parseChars (34 :: rest) = some ([], rest) := by
  rw [parseChars.eq_def]; simp

theorem parseChars_plain (c : Nat) (rest : JSString) (h34 : c ≠ 34) (h92 : c ≠ 92)
    (h32 : ¬ c < 32) : parseChars (c :: rest) = pushChar c (parseChars rest) := by
  rw [parseChars.eq_def]; simp [h34, h92, h32]

theorem parseChars_escape (e v : Nat) (rest : JSString) (hu : e ≠ 117)
    (hv : unescape e = some v) :
    parseChars (92 :: e :: rest) = pushChar v (parseChars rest) := by
  rw [parseChars.eq_def]; simp [hu, hv]

theorem parseChars_UnicodeEscape (c : Nat) (h : c < 65536) (rest : JSString) :
    parseChars (UnicodeEscape c ++ rest) = pushChar c (parseChars rest) := by
  unfold UnicodeEscape
  rw [List.cons_append, parseChars.eq_def]
  simp [hex4_UnicodeEscape c h]

/-- One step of QuoteJSONString: what it writes for a code unit reads back as that code unit. -/
theorem quoteChars_cons (paired : Bool) (c : Nat) (s : JSString) :
    ∃ (out : JSString) (next : Bool), quoteChars paired (c :: s) = out ++ quoteChars next s ∧
      ∀ rest, parseChars (out ++ rest) = pushChar c (parseChars rest) := by
  by_cases h8 : c = 8
  · exact ⟨[92, 98], false, by simp [quoteChars, h8],
      fun rest => by subst h8; exact parseChars_escape 98 8 rest (by decide) rfl⟩
  by_cases h9 : c = 9
  · exact ⟨[92, 116], false, by simp [quoteChars, h9],
      fun rest => by subst h9; exact parseChars_escape 116 9 rest (by decide) rfl⟩
  by_cases h10 : c = 10
  · exact ⟨[92, 110], false, by simp [quoteChars, h10],
      fun rest => by subst h10; exact parseChars_escape 110 10 rest (by decide) rfl⟩
  by_cases h12 : c = 12
  · exact ⟨[92, 102], false, by simp [quoteChars, h12],
      fun rest => by subst h12; exact parseChars_escape 102 12 rest (by decide) rfl⟩
  by_cases h13 : c = 13
  · exact ⟨[92, 114], false, by simp [quoteChars, h13],
      fun rest => by subst h13; exact parseChars_escape 114 13 rest (by decide) rfl⟩
  by_cases h34 : c = 34
  · exact ⟨[92, 34], false, by simp [quoteChars, h34],
      fun rest => by subst h34; exact parseChars_escape 34 34 rest (by decide) rfl⟩
  by_cases h92 : c = 92
  · exact ⟨[92, 92], false, by simp [quoteChars, h92],
      fun rest => by subst h92; exact parseChars_escape 92 92 rest (by decide) rfl⟩
  by_cases h32 : c < 32
  · exact ⟨UnicodeEscape c, false, by simp [quoteChars, h8, h9, h10, h12, h13, h34, h92, h32],
      fun rest => parseChars_UnicodeEscape c (by omega) rest⟩
  by_cases hlead : isLeadingSurrogate c = true
  · have hc : c < 65536 := by
      simp only [isLeadingSurrogate, Bool.and_eq_true, decide_eq_true_eq] at hlead; omega
    by_cases hnext : (s.head?.map isTrailingSurrogate).getD false = true
    · exact ⟨[c], true,
        by simp [quoteChars, h8, h9, h10, h12, h13, h34, h92, h32, hlead, hnext],
        fun rest => parseChars_plain c rest h34 h92 h32⟩
    · exact ⟨UnicodeEscape c, false,
        by simp [quoteChars, h8, h9, h10, h12, h13, h34, h92, h32, hlead, hnext],
        fun rest => parseChars_UnicodeEscape c hc rest⟩
  by_cases htrail : isTrailingSurrogate c = true
  · have hc : c < 65536 := by
      simp only [isTrailingSurrogate, Bool.and_eq_true, decide_eq_true_eq] at htrail; omega
    cases paired
    · exact ⟨UnicodeEscape c, false,
        by simp [quoteChars, h8, h9, h10, h12, h13, h34, h92, h32, hlead, htrail],
        fun rest => parseChars_UnicodeEscape c hc rest⟩
    · exact ⟨[c], false,
        by simp [quoteChars, h8, h9, h10, h12, h13, h34, h92, h32, hlead, htrail],
        fun rest => parseChars_plain c rest h34 h92 h32⟩
  · exact ⟨[c], false,
      by simp [quoteChars, h8, h9, h10, h12, h13, h34, h92, h32, hlead, htrail],
      fun rest => parseChars_plain c rest h34 h92 h32⟩

/-- Reading back what QuoteJSONString wrote: the string, and the input after the closing
quote. -/
theorem parseChars_quoteChars (s : JSString) :
    ∀ (paired : Bool) (rest : JSString),
      parseChars (quoteChars paired s ++ 34 :: rest) = some (s, rest) := by
  induction s with
  | nil => intro paired rest; simpa [quoteChars] using parseChars_quote rest
  | cons c s ih =>
    intro paired rest
    obtain ⟨out, next, h1, h2⟩ := quoteChars_cons paired c s
    rw [h1, List.append_assoc, h2, ih]
    rfl

theorem stringify_record (k1 k2 k3 s t r : JSString) :
    JSON.stringify [[(k1, some s), (k2, some t), (k3, some r)]] =
      91 :: 123 :: 34 :: (quoteChars false k1 ++ 34 :: 58 :: 34 :: (quoteChars false s ++
        34 :: 44 :: 34 :: (quoteChars false k2 ++ 34 :: 58 :: 34 :: (quoteChars false t ++
        34 :: 44 :: 34 :: (quoteChars false k3 ++ 34 :: 58 :: 34 :: (quoteChars false r ++
        [34, 125, 93])))))) := by
  simp [JSON.stringify, SerializeJSONObject, serializeProperties, join, QuoteJSONString]

theorem parseValue_record (k1 k2 k3 s t r : JSString) (n : Nat) :
    parseValue (n + 1 + 1 + 1 + 1 + 1 + 1)
        (JSON.stringify [[(k1, some s), (k2, some t), (k3, some r)]]) =
      some (JSValue.array [JSValue.object
        [(k1, JSValue.string s), (k2, JSValue.string t), (k3, JSValue.string r)]], []) := by
  rw [stringify_record]
  simp [parseValue, parseElements, parseMembers, skipWS, isWhitespace, parseChars_quoteChars,
    parseChars_quote]

/-- What `JSON.stringify` writes for the record of `runwindow_save`, `JSON.parse` reads back
as that record. -/
theorem parse_stringify_record (k1 k2 k3 s t r : JSString) :
    JSON.parse (JSON.stringify [[(k1, some s), (k2, some t), (k3, some r)]]) =
      some (JSValue.array [JSValue.object
        [(k1, JSValue.string s), (k2, JSValue.string t), (k3, JSValue.string r)]]) := by
  unfold JSON.parse
  have hlen : ∃ n, (JSON.stringify [[(k1, some s), (k2, some t), (k3, some r)]]).length + 1 =
      n + 1 + 1 + 1 + 1 + 1 + 1 := by
    refine ⟨(JSON.stringify [[(k1, some s), (k2, some t), (k3, some r)]]).length - 5, ?_⟩
    rw [stringify_record]
    simp only [List.length_cons, List.length_append]
    omega
  obtain ⟨n, hn⟩ := hlen
  rw [hn, parseValue_record]
  simp [skipWS]

theorem stringify_ne_nil (records : List (List (JSString × Option JSString))) :
    JSON.stringify records ≠ [] := by
  simp [JSON.stringify]

/-! ## The fuel of `JSON.parse` and of the pattern is enough -/

theorem skipWS_length (s : JSString) : (skipWS s).length ≤ s.length := by
  induction s with
  | nil => simp [skipWS]
  | cons c s ih =>
    unfold skipWS
    split_ifs
    · simp only [List.length_cons]; omega
    · exact le_refl _

theorem pushChar_eq_some (c : Nat) (o : Option (JSString × JSString)) (x rest : JSString)
    (h : pushChar c o = some (x, rest)) : ∃ y, o = some (y, rest) := by
  cases o with
  | none => simp [pushChar] at h
  | some p =>
    obtain ⟨y, r⟩ := p
    simp only [pushChar, Option.some.injEq, Prod.mk.injEq] at h
    exact ⟨y, by rw [h.2]⟩

theorem parseChars_length (n : Nat) :
    ∀ (s x rest : JSString), s.length ≤ n → parseChars s = some (x, rest) →
      rest.length < s.length := by
  induction n using Nat.strong_induction_on with
  | _ n ih =>
    intro s x rest hn h
    rw [parseChars.eq_def] at h
    cases s with
    | nil => simp at h
    | cons c s1 =>
      simp only [List.length_cons] at hn ⊢
      simp only at h
      split_ifs at h with h34 h92 h32
      · simp only [Option.some.injEq, Prod.mk.injEq] at h
        rw [← h.2]; omega
      · cases s1 with
        | nil => simp at h
        | cons e s2 =>
          simp only [List.length_cons] at hn ⊢
          simp only at h
          split_ifs at h with h117
          · split at h
            · rename_i h1 h2 h3 h4 s3
              split at h
              · obtain ⟨y, hy⟩ := pushChar_eq_some _ _ _ _ h
                have := ih s3.length (by simp only [List.length_cons] at hn; omega) s3 y rest
                  (le_refl _) hy
                simp only [List.length_cons]
                omega
              · simp at h
            · simp at h
          · split at h
            · obtain ⟨y, hy⟩ := pushChar_eq_some _ _ _ _ h
              have := ih s2.length (by omega) s2 y rest (le_refl _) hy
              omega
            · simp at h
      · obtain ⟨y, hy⟩ := pushChar_eq_some _ _ _ _ h
        have := ih s1.length (by omega) s1 y rest (le_refl _) hy
        omega

theorem takeDigits_length (s : JSString) : (takeDigits s).2.length ≤ s.length := by
  induction s with
  | nil => simp [takeDigits]
  | cons c s ih =>
    unfold takeDigits
    split_ifs
    · simp only [List.length_cons]; omega
    · exact le_refl _

theorem parseInt_length (s rest : JSString) (ds : List Nat) (h : parseInt s = some (ds, rest)) :
    rest.length < s.length := by
  cases s with
  | nil => simp [parseInt] at h
  | cons c s1 =>
    simp only [parseInt] at h
    have := takeDigits_length s1
    split_ifs at h <;> simp only [Option.some.injEq, Prod.mk.injEq] at h <;>
      simp only [List.length_cons] <;> (try (rw [← h.2]; omega))

theorem parseFrac_length (s rest : JSString) (ds : List Nat) (h : parseFrac s = some (ds, rest)) :
    rest.length ≤ s.length := by
  cases s with
  | nil =>
    simp only [parseFrac, Option.some.injEq, Prod.mk.injEq] at h
    rw [← h.2]
  | cons c s1 =>
    simp only [parseFrac] at h
    have := takeDigits_length s1
    split_ifs at h
    · simp only [Option.some.injEq] at h
      have h2 : rest = (takeDigits s1).2 := by rw [h]
      rw [h2]; simp only [List.length_cons]; omega
    · simp only [Option.some.injEq, Prod.mk.injEq] at h
      rw [← h.2]

theorem parseExpDigits_length (b : Bool) (s rest : JSString) (e : Int)
    (h : parseExpDigits b s = some (e, rest)) : rest.length ≤ s.length := by
  unfold parseExpDigits at h
  have := takeDigits_length s
  split_ifs at h <;> simp only [Option.some.injEq, Prod.mk.injEq] at h <;>
    (rw [← h.2]; exact this)

theorem parseExp_length (s rest : JSString) (e : Int) (h : parseExp s = some (e, rest)) :
    rest.length ≤ s.length := by
  cases s with
  | nil =>
    simp only [parseExp, Option.some.injEq, Prod.mk.injEq] at h
    rw [← h.2]
  | cons c s1 =>
    simp only [parseExp] at h
    split_ifs at h
    · cases s1 with
      | nil => simp at h
      | cons d s2 =>
        simp only at h
        split_ifs at h
        · have := parseExpDigits_length _ _ _ _ h
          simp only [List.length_cons]; omega
        · have := parseExpDigits_length _ _ _ _ h
          simp only [List.length_cons]; omega
        · have := parseExpDigits_length _ _ _ _ h
          simp only [List.length_cons] at this ⊢; omega
    · simp only [Option.some.injEq, Prod.mk.injEq] at h
      rw [← h.2]

theorem parseUnsigned_length (b : Bool) (s rest : JSString) (v : JSValue)
    (h : parseUnsigned b s = some (v, rest)) : rest.length < s.length := by
  unfold parseUnsigned at h
  cases h1 : parseInt s with
  | none => simp [h1] at h
  | some p1 =>
    obtain ⟨ds, s1⟩ := p1
    have l1 := parseInt_length _ _ _ h1
    simp only [h1] at h
    cases h2 : parseFrac s1 with
    | none => simp [h2] at h
    | some p2 =>
      obtain ⟨fs, s2⟩ := p2
      have l2 := parseFrac_length _ _ _ h2
      simp only [h2] at h
      cases h3 : parseExp s2 with
      | none => simp [h3] at h
      | some p3 =>
        obtain ⟨e, s3⟩ := p3
        have l3 := parseExp_length _ _ _ h3
        simp only [h3, Option.some.injEq, Prod.mk.injEq] at h
        rw [← h.2]; omega

theorem parseElements_length (pv : JSString → Option (JSValue × JSString))
    (hpv : ∀ s v r, pv s = some (v, r) → r.length < s.length) :
    ∀ (n : Nat) (s rest : JSString) (vs : List JSValue),
      parseElements pv n s = some (vs, rest) → rest.length < s.length := by
  intro n
  induction n with
  | zero => intro s rest vs h; simp [parseElements] at h
  | succ n ih =>
    intro s rest vs h
    rw [parseElements] at h
    cases h1 : pv s with
    | none => simp [h1] at h
    | some p =>
      obtain ⟨v, r1⟩ := p
      have l1 := hpv _ _ _ h1
      have l2 := skipWS_length r1
      simp only [h1] at h
      cases h2 : skipWS r1 with
      | nil => simp [h2] at h
      | cons c r2 =>
        rw [h2] at l2
        simp only [List.length_cons] at l2
        simp only [h2] at h
        split_ifs at h
        · cases h3 : parseElements pv n r2 with
          | none => simp [h3] at h
          | some q =>
            obtain ⟨ws, r3⟩ := q
            have l3 := ih _ _ _ h3
            simp only [h3, Option.some.injEq, Prod.mk.injEq] at h
            rw [← h.2]; omega
        · simp only [Option.some.injEq, Prod.mk.injEq] at h
          rw [← h.2]; omega

theorem parseChars_lt (s x rest : JSString) (h : parseChars s = some (x, rest)) :
    rest.length < s.length :=
  parseChars_length s.length s x rest (le_refl _) h

theorem parseMembers_length (pv : JSString → Option (JSValue × JSString))
    (hpv : ∀ s v r, pv s = some (v, r) → r.length < s.length) :
    ∀ (n : Nat) (s rest : JSString) (kvs : List (JSString × JSValue)),
      parseMembers pv n s = some (kvs, rest) → rest.length < s.length := by
  intro n
  induction n with
  | zero => intro s rest kvs h; simp [parseMembers] at h
  | succ n ih =>
    intro s rest kvs h
    rw [parseMembers] at h
    have l0 := skipWS_length s
    cases h0 : skipWS s with
    | nil => simp [h0] at h
    | cons q s1 =>
      rw [h0] at l0
      simp only [List.length_cons] at l0
      simp only [h0] at h
      split_ifs at h
      cases h1 : parseChars s1 with
      | none => simp [h1] at h
      | some p =>
        obtain ⟨key, s2⟩ := p
        have l1 := parseChars_lt _ _ _ h1
        have l2 := skipWS_length s2
        simp only [h1] at h
        cases h2 : skipWS s2 with
        | nil => simp [h2] at h
        | cons colon s3 =>
          rw [h2] at l2
          simp only [List.length_cons] at l2
          simp only [h2] at h
          split_ifs at h
          cases h3 : pv s3 with
          | none => simp [h3] at h
          | some p3 =>
            obtain ⟨v, s4⟩ := p3
            have l3 := hpv _ _ _ h3
            have l4 := skipWS_length s4
            simp only [h3] at h
            cases h4 : skipWS s4 with
            | nil => simp [h4] at h
            | cons c s5 =>
              rw [h4] at l4
              simp only [List.length_cons] at l4
              simp only [h4] at h
              split_ifs at h
              · cases h5 : parseMembers pv n s5 with
                | none => simp [h5] at h
                | some q5 =>
                  obtain ⟨ws, s6⟩ := q5
                  have l5 := ih _ _ _ h5
                  simp only [h5, Option.some.injEq, Prod.mk.injEq] at h
                  rw [← h.2]; omega
              · simp only [Option.some.injEq, Prod.mk.injEq] at h
                rw [← h.2]; omega

/-- Whatever `parseValue` reads, it consumes at least one code unit. -/
theorem parseValue_length :
    ∀ (f : Nat) (s rest : JSString) (v : JSValue),
      parseValue f s = some (v, rest) → rest.length < s.length := by
  intro f
  induction f with
  | zero => intro s rest v h; simp [parseValue] at h
  | succ f ih =>
    intro s rest v h
    rw [parseValue] at h
    have l0 := skipWS_length s
    cases h0 : skipWS s with
    | nil => simp [h0] at h
    | cons c s1 =>
      rw [h0] at l0
      simp only [List.length_cons] at l0
      simp only [h0] at h
      split_ifs at h with hobj harr hstr hneg hdig htrue hfalse hnull
      · have l1 := skipWS_length s1
        cases h1 : skipWS s1 with
        | nil => simp [h1] at h
        | cons d s2 =>
          rw [h1] at l1
          simp only [List.length_cons] at l1
          simp only [h1] at h
          split_ifs at h
          · simp only [Option.some.injEq, Prod.mk.injEq] at h
            rw [← h.2]; omega
          · cases h2 : parseMembers (parseValue f) f s1 with
            | none => simp [h2] at h
            | some q =>
              obtain ⟨kvs, s3⟩ := q
              have l2 := parseMembers_length _ (fun a b c hh => ih a c b hh) _ _ _ _ h2
              simp only [h2, Option.some.injEq, Prod.mk.injEq] at h
              rw [← h.2]; omega
      · have l1 := skipWS_length s1
        cases h1 : skipWS s1 with
        | nil => simp [h1] at h
        | cons d s2 =>
          rw [h1] at l1
          simp only [List.length_cons] at l1
          simp only [h1] at h
          split_ifs at h
          · simp only [Option.some.injEq, Prod.mk.injEq] at h
            rw [← h.2]; omega
          · cases h2 : parseElements (parseValue f) f s1 with
            | none => simp [h2] at h
            | some q =>
              obtain ⟨vs, s3⟩ := q
              have l2 := parseElements_length _ (fun a b c hh => ih a c b hh) _ _ _ _ h2
              simp only [h2, Option.some.injEq, Prod.mk.injEq] at h
              rw [← h.2]; omega
      · cases h1 : parseChars s1 with
        | none => simp [h1] at h
        | some q =>
          obtain ⟨str, s2⟩ := q
          have l1 := parseChars_lt _ _ _ h1
          simp only [h1, Option.some.injEq, Prod.mk.injEq] at h
          rw [← h.2]; omega
      · have := parseUnsigned_length _ _ _ _ h
        omega
      · have := parseUnsigned_length _ _ _ _ h
        simp only [List.length_cons] at this
        omega
      · simp only [Option.some.injEq, Prod.mk.injEq] at h
        rw [← h.2]; simp only [List.length_drop]; omega
      · simp only [Option.some.injEq, Prod.mk.injEq] at h
        rw [← h.2]; simp only [List.length_drop]; omega
      · simp only [Option.some.injEq, Prod.mk.injEq] at h
        rw [← h.2]; simp only [List.length_drop]; omega

theorem parseElements_fuel (pv1 pv2 : JSString → Option (JSValue × JSString)) (bound : Nat)
    (hpv : ∀ s v r, pv1 s = some (v, r) → r.length < s.length)
    (heq : ∀ s, s.length ≤ bound → pv1 s = pv2 s) :
    ∀ (n1 n2 : Nat) (s : JSString), s.length ≤ bound → s.length < n1 → s.length < n2 →
      parseElements pv1 n1 s = parseElements pv2 n2 s := by
  intro n1
  induction n1 with
  | zero => intro n2 s _ h1 _; omega
  | succ n1 ih =>
    intro n2 s hb h1 h2
    cases n2 with
    | zero => omega
    | succ n2 =>
      rw [parseElements, parseElements, ← heq s hb]
      cases hp : pv1 s with
      | none => rfl
      | some p =>
        obtain ⟨v, r1⟩ := p
        have l1 := hpv _ _ _ hp
        have l2 := skipWS_length r1
        simp only
        cases hs : skipWS r1 with
        | nil => rfl
        | cons c r2 =>
          rw [hs] at l2
          simp only [List.length_cons] at l2
          simp only
          rw [ih n2 r2 (by omega) (by omega) (by omega)]

theorem parseMembers_fuel (pv1 pv2 : JSString → Option (JSValue × JSString)) (bound : Nat)
    (hpv : ∀ s v r, pv1 s = some (v, r) → r.length < s.length)
    (heq : ∀ s, s.length ≤ bound → pv1 s = pv2 s) :
    ∀ (n1 n2 : Nat) (s : JSString), s.length ≤ bound → s.length < n1 → s.length < n2 →
      parseMembers pv1 n1 s = parseMembers pv2 n2 s := by
  intro n1
  induction n1 with
  | zero => intro n2 s _ h1 _; omega
  | succ n1 ih =>
    intro n2 s hb h1 h2
    cases n2 with
    | zero => omega
    | succ n2 =>
      rw [parseMembers, parseMembers]
      have l0 := skipWS_length s
      cases h0 : skipWS s with
      | nil => rfl
      | cons q s1 =>
        rw [h0] at l0
        simp only [List.length_cons] at l0
        simp only
        by_cases hq : q = 34
        · simp only [hq, if_true]
          cases hc : parseChars s1 with
          | none => rfl
          | some p =>
            obtain ⟨key, s2⟩ := p
            have l1 := parseChars_lt _ _ _ hc
            have l2 := skipWS_length s2
            simp only
            cases h2 : skipWS s2 with
            | nil => rfl
            | cons colon s3 =>
              rw [h2] at l2
              simp only [List.length_cons] at l2
              simp only
              by_cases hcol : colon = 58
              · simp only [hcol, if_true]
                rw [← heq s3 (by omega)]
                cases hv : pv1 s3 with
                | none => rfl
                | some p3 =>
                  obtain ⟨v, s4⟩ := p3
                  have l3 := hpv _ _ _ hv
                  have l4 := skipWS_length s4
                  simp only
                  cases h4 : skipWS s4 with
                  | nil => rfl
                  | cons c s5 =>
                    rw [h4] at l4
                    simp only [List.length_cons] at l4
                    simp only
                    rw [ih n2 s5 (by omega) (by omega) (by omega)]
              · simp only [hcol, if_false]
        · simp only [hq, if_false]

/-- More fuel than the input is long changes nothing: the result of `parseValue` does not
depend on the fuel then. -/
theorem parseValue_fuel :
    ∀ (f1 f2 : Nat) (s : JSString), s.length < f1 → s.length < f2 →
      parseValue f1 s = parseValue f2 s := by
  intro f1
  induction f1 with
  | zero => intro f2 s h1 _; omega
  | succ f1 ih =>
    intro f2 s h1 h2
    cases f2 with
    | zero => omega
    | succ f2 =>
      rw [parseValue, parseValue]
      have l0 := skipWS_length s
      cases h0 : skipWS s with
      | nil => rfl
      | cons c s1 =>
        rw [h0] at l0
        simp only [List.length_cons] at l0
        simp only
        have hpv : ∀ s v r, parseValue f1 s = some (v, r) → r.length < s.length :=
          fun a b c hh => parseValue_length f1 a c b hh
        have heq : ∀ s, s.length ≤ s1.length → parseValue f1 s = parseValue f2 s :=
          fun a ha => ih f2 a (by omega) (by omega)
        rw [parseMembers_fuel (parseValue f1) (parseValue f2) s1.length hpv heq f1 f2 s1
            (le_refl _) (by omega) (by omega),
          parseElements_fuel (parseValue f1) (parseValue f2) s1.length hpv heq f1 f2 s1
            (le_refl _) (by omega) (by omega)]

/-- The fuel `JSON.parse` runs on is enough: with any more fuel the parser gives the same
result, so `none` is a syntax error of the text and never a parser that ran dry. -/
theorem parse_fuel (text : JSString) (fuel : Nat) (h : text.length < fuel) :
    parseValue fuel text = parseValue (text.length + 1) text :=
  parseValue_fuel fuel (text.length + 1) text h (Nat.lt_succ_self _)

theorem dayToken_length (s tok rest : JSString) (h : dayToken s = some (tok, rest)) :
    rest.length < s.length := by
  unfold dayToken at h
  split at h
  · split_ifs at h <;> simp only [Option.some.injEq, Prod.mk.injEq] at h <;>
      (rw [← h.2]; simp only [List.length_cons]; omega)
  · split_ifs at h
    simp only [Option.some.injEq, Prod.mk.injEq] at h
    rw [← h.2]; simp
  · simp at h

/-- The fuel of the pattern's star is enough: with fuel for the whole input, more fuel changes
nothing. -/
theorem dayTokens_fuel :
    ∀ (n m : Nat) (s : JSString), s.length ≤ n → s.length ≤ m →
      dayTokens n s = dayTokens m s := by
  intro n
  induction n with
  | zero =>
    intro m s h1 _
    have hs : s = [] := List.length_eq_zero.mp (by omega)
    subst hs
    cases m <;> simp [dayTokens, dayToken]
  | succ n ih =>
    intro m s h1 h2
    cases m with
    | zero =>
      have hs : s = [] := List.length_eq_zero.mp (by omega)
      subst hs
      simp [dayTokens, dayToken]
    | succ m =>
      rw [dayTokens, dayTokens]
      cases ht : dayToken s with
      | none => rfl
      | some p =>
        obtain ⟨tok, rest⟩ := p
        have l := dayToken_length _ _ _ ht
        simp only
        rw [ih m rest (by omega) (by omega)]

/-! ## `runwindow_load` on a rendered widget -/

theorem attrChecked_append (sel : Element → Bool) (u : Bool) (l1 l2 : List Element) :
    attrChecked sel u (l1 ++ l2) = attrChecked sel u l1 ++ attrChecked sel u l2 := by
  simp [attrChecked]

theorem setVal_append (sel : Element → Bool) (v : JSString) (l1 l2 : List Element) :
    setVal sel v (l1 ++ l2) = setVal sel v l1 ++ setVal sel v l2 := by
  simp [setVal]

theorem eachDay_append (N : JSString) (en : List JSString) (l1 l2 : List Element) :
    eachDay N en (l1 ++ l2) = eachDay N en l1 ++ eachDay N en l2 := by
  simp [eachDay]

theorem attrChecked_render (N : JSString) (u : Bool) (w : Widget) :
    attrChecked (fun el => isInput el && nameIs (N ++ lit "-use-schedule") el) u
        (render N w).controls = (render N { w with useSchedule := u }).controls := by
  rw [render_controls, render_controls, attrChecked_append, attrChecked_dayInputs]
  congr 1
  simp [attrChecked, input, lit]

theorem setVal_start_render (N v : JSString) (w : Widget) :
    setVal (nameIs (N ++ lit "-start")) v (render N w).controls =
      (render N { w with startTime := v }).controls := by
  rw [render_controls, render_controls, setVal_append, setVal_start_dayInputs]
  congr 1
  simp [setVal, input, lit]

theorem setVal_end_render (N v : JSString) (w : Widget) :
    setVal (nameIs (N ++ lit "-end")) v (render N w).controls =
      (render N { w with endTime := v }).controls := by
  rw [render_controls, render_controls, setVal_append, setVal_end_dayInputs]
  congr 1
  simp [setVal, input, lit]

theorem eachDay_render (N : JSString) (en : List JSString) (w : Widget) :
    eachDay N en (render N w).controls =
      (render N { w with
        days := Week.map (fun cd : JSString × DayBox =>
          { cd.2 with checked := includes en (dayPiece N cd.1),
                      parentActive := includes en (dayPiece N cd.1) })
          ⟨(dayCodes.mo, w.days.mo), (dayCodes.tu, w.days.tu), (dayCodes.we, w.days.we),
           (dayCodes.th, w.days.th), (dayCodes.fr, w.days.fr), (dayCodes.sa, w.days.sa),
           (dayCodes.su, w.days.su)⟩ }).controls := by
  rw [render_controls, render_controls, eachDay_append, eachDay_dayInputs]
  congr 1
  simp [eachDay, input, lit, List.isPrefixOf]

theorem render_name (N : JSString) (w : Widget) : (render N w).name = N := rfl

theorem render_value (N : JSString) (w : Widget) : (render N w).value = w.value := rfl

theorem render_eq_of_controls (N : JSString) (w w2 : Widget) (l : List Element)
    (h : l = (render N w2).controls) (hv : w2.value = w.value) :
    (⟨N, w.value, l⟩ : RunwindowForm) = render N w2 := by
  subst h
  simp [render, hv]

theorem controls_unloaded (N : JSString) (w : Widget) :
    (⟨N, w.value,
        attrChecked (fun el => isInput el && nameIs (N ++ lit "-use-schedule") el) false
          (attrDisabled N false (render N w).controls)⟩ : RunwindowForm) =
      render N (unloaded w) := by
  apply render_eq_of_controls
  · rw [attrDisabled_render, attrChecked_render]; rfl
  · rfl

theorem controls_loaded (N s t : JSString) (en : List JSString) (w : Widget) :
    (⟨N, w.value,
        eachDay N en
          (setVal (nameIs (N ++ lit "-end")) t
            (setVal (nameIs (N ++ lit "-start")) s
              (attrChecked (fun el => isInput el && nameIs (N ++ lit "-use-schedule") el) true
                (attrDisabled N true (render N w).controls))))⟩ : RunwindowForm) =
      render N (loaded N s t en w) := by
  apply render_eq_of_controls
  · rw [attrDisabled_render, attrChecked_render, setVal_start_render, setVal_end_render,
      eachDay_render]
    rfl
  · rfl

@[simp] theorem bind_normal {α β : Type} (a : α) (f : α → Completion β) :
    (Completion.normal a).bind f = f a := rfl

@[simp] theorem bind_throw {α β : Type} (err : JSError) (f : α → Completion β) :
    (Completion.throw err : Completion α).bind f = Completion.throw err := rfl

@[simp] theorem bind_unsupported {α β : Type} (f : α → Completion β) :
    (Completion.unsupported : Completion α).bind f = Completion.unsupported := rfl

/-- The function `runwindow_load` on a rendered widget leaves a rendered widget. -/
theorem load_render (N : JSString) (value : Option JSString) (w : Widget) :
    runwindow_load value (render N w) = (dataOf value).bind (loadedFrom N w) := by
  unfold runwindow_load
  cases dataOf value with
  | throw err => simp only [bind_throw]
  | unsupported => simp only [bind_unsupported]
  | normal data =>
    simp only [bind_normal, render_name, render_value]
    cases hb : ToBoolean data
    · simp only [Bool.not_false, if_true, loadedFrom, hb, controls_unloaded]
    · simp only [Bool.not_true, loadedFrom, hb, controls_loaded, Bool.false_eq_true, if_false]

/-! ## The seven day codes -/

theorem dayCodes_isDayCode : ∀ c ∈ dayCodes.toList, isDayCode c := by
  intro c hc
  simp only [dayCodes, Week.toList, List.mem_cons, List.mem_singleton, List.mem_nil_iff,
    or_false] at hc
  rcases hc with rfl | rfl | rfl | rfl | rfl | rfl | rfl <;>
    exact ⟨_, _, rfl, by decide, by decide⟩

theorem isDayCode_no_comma (c : JSString) (h : isDayCode c) : 44 ∉ c := by
  obtain ⟨a, b, rfl, ha, hb⟩ := h
  simp only [isUpper, Bool.and_eq_true, decide_eq_true_eq] at ha hb
  simp only [List.mem_cons, List.mem_singleton, List.mem_nil_iff, or_false, not_or]
  omega

theorem isDayCode_no_hyphen (c : JSString) (h : isDayCode c) : 45 ∉ c := by
  obtain ⟨a, b, rfl, ha, hb⟩ := h
  simp only [isUpper, Bool.and_eq_true, decide_eq_true_eq] at ha hb
  simp only [List.mem_cons, List.mem_singleton, List.mem_nil_iff, or_false, not_or]
  omega

theorem isDayCode_ne_nil (c : JSString) (h : isDayCode c) : c ≠ [] := by
  obtain ⟨a, b, rfl, _, _⟩ := h
  simp

theorem checkedCodes_subset (days : Week Bool) : ∀ c ∈ checkedCodes days, c ∈ dayCodes.toList := by
  intro c hc
  simp only [checkedCodes, List.mem_map, List.mem_filter] at hc
  obtain ⟨cd, ⟨hmem, _⟩, rfl⟩ := hc
  exact (List.of_mem_zip hmem).1

theorem checkedCodes_isDayCode (days : Week Bool) : ∀ c ∈ checkedCodes days, isDayCode c :=
  fun c hc => dayCodes_isDayCode c (checkedCodes_subset days c hc)

/-- Each day is among the checked codes exactly when its checkbox is checked. -/
theorem mem_checkedCodes (days : Week Bool) :
    dayCodes.map (fun c => decide (c ∈ checkedCodes days)) = days := by
  rcases days with ⟨a, b, c, d, e, f, g⟩
  cases a <;> cases b <;> cases c <;> cases d <;> cases e <;> cases f <;> cases g <;> rfl

/-- In a widget whose name has no hyphen, `daysOfWeek` is the list of the checked day codes. -/
theorem daysOfWeek_eq (N : JSString) (w : Widget) (hN : 45 ∉ N) :
    daysOfWeek N w = checkedCodes w.ui.days := by
  have hpiece : ∀ cd ∈ w.dayList, dayPiece N cd.1 = some cd.1 := by
    intro cd hcd
    exact dayPiece_eq N cd.1 hN
      (isDayCode_no_hyphen _ (dayCodes_isDayCode _ (List.of_mem_zip hcd).1))
  have h1 : daysOfWeek N w = (w.dayList.filter fun cd => cd.2.checked).map fun cd => cd.1 := by
    unfold daysOfWeek
    generalize w.dayList = l at hpiece
    induction l with
    | nil => rfl
    | cons cd l ih =>
      have ih2 := ih (fun x hx => hpiece x (List.mem_cons_of_mem _ hx))
      have hcd := hpiece cd (List.mem_cons_self _ _)
      simp only [List.filter_cons]
      cases cd.2.checked
      · simpa using ih2
      · simp only [if_true, List.filterMap_cons, hcd, List.map_cons, ih2]
  rw [h1]
  simp only [Widget.dayList, checkedCodes, Widget.ui, Week.toList, Week.map, List.zip_cons_cons,
    List.zip_nil_right, List.filter_cons, List.filter_nil]
  cases w.days.mo.checked <;> cases w.days.tu.checked <;> cases w.days.we.checked <;>
    cases w.days.th.checked <;> cases w.days.fr.checked <;> cases w.days.sa.checked <;>
    cases w.days.su.checked <;> rfl

/-! ## `runwindow_save` reads nothing that it writes -/

theorem attrDisabled_eq_map (N : JSString) (u : Bool) (root : List Element) :
    attrDisabled N u root = root.map (disableOne N u) := rfl

theorem disableOne_tag (N : JSString) (u : Bool) (el : Element) :
    (disableOne N u el).tag = el.tag := by
  unfold disableOne; dsimp only; split_ifs <;> rfl

theorem disableOne_name (N : JSString) (u : Bool) (el : Element) :
    (disableOne N u el).name = el.name := by
  unfold disableOne; dsimp only; split_ifs <;> rfl

theorem disableOne_value (N : JSString) (u : Bool) (el : Element) :
    (disableOne N u el).value = el.value := by
  unfold disableOne; dsimp only; split_ifs <;> rfl

theorem disableOne_checked (N : JSString) (u : Bool) (el : Element) :
    (disableOne N u el).checked = el.checked := by
  unfold disableOne; dsimp only; split_ifs <;> rfl

theorem disableOne_idem (N : JSString) (u : Bool) (el : Element) :
    disableOne N u (disableOne N u el) = disableOne N u el := by
  have h1 : isScheduling N (disableOne N u el) = isScheduling N el := by
    simp only [isScheduling, nameIs, nameStartsWith, disableOne_name]
  have h2 : nameStartsWith (N ++ lit "-day-") (disableOne N u el) =
      nameStartsWith (N ++ lit "-day-") el := by
    simp only [nameStartsWith, disableOne_name]
  rw [disableOne, h1, h2]
  unfold disableOne
  dsimp only
  split_ifs <;> rfl

theorem isInput_disableOne (N : JSString) (u : Bool) (el : Element) :
    isInput (disableOne N u el) = isInput el := by
  simp only [isInput, disableOne_tag]

theorem nameIs_disableOne (N n : JSString) (u : Bool) (el : Element) :
    nameIs n (disableOne N u el) = nameIs n el := by
  simp only [nameIs, disableOne_name]

theorem nameStartsWith_disableOne (N p : JSString) (u : Bool) (el : Element) :
    nameStartsWith p (disableOne N u el) = nameStartsWith p el := by
  simp only [nameStartsWith, disableOne_name]

theorem dayOf_disableOne (N : JSString) (u : Bool) (el : Element) :
    dayOf (disableOne N u el) = dayOf el := by
  simp only [dayOf, disableOne_name]

theorem isChecked_attrDisabled (N n : JSString) (u : Bool) (root : List Element) :
    isChecked (fun el => isInput el && nameIs n el) (attrDisabled N u root) =
      isChecked (fun el => isInput el && nameIs n el) root := by
  induction root with
  | nil => rfl
  | cons el root ih =>
    simp only [attrDisabled_eq_map, isChecked, List.map_cons, List.any_cons] at ih ⊢
    rw [ih, isInput_disableOne, nameIs_disableOne, disableOne_checked]

theorem getVal_attrDisabled (N n : JSString) (u : Bool) (root : List Element) :
    getVal (fun el => isInput el && nameIs n el) (attrDisabled N u root) =
      getVal (fun el => isInput el && nameIs n el) root := by
  induction root with
  | nil => rfl
  | cons el root ih =>
    simp only [attrDisabled_eq_map, getVal, List.map_cons, List.find?_cons] at ih ⊢
    rw [isInput_disableOne, nameIs_disableOne]
    cases isInput el && nameIs n el
    · exact ih
    · simp only [Option.map_some', disableOne_value]

theorem daysOfWeek_attrDisabled (N : JSString) (u : Bool) (root : List Element) :
    ((attrDisabled N u root).filter fun el =>
        isInput el && nameStartsWith (N ++ lit "-day-") el && el.checked).filterMap dayOf =
      (root.filter fun el =>
        isInput el && nameStartsWith (N ++ lit "-day-") el && el.checked).filterMap dayOf := by
  induction root with
  | nil => rfl
  | cons el root ih =>
    simp only [attrDisabled_eq_map, List.map_cons, List.filter_cons] at ih ⊢
    rw [isInput_disableOne, nameStartsWith_disableOne, disableOne_checked]
    cases isInput el && nameStartsWith (N ++ lit "-day-") el && el.checked
    · exact ih
    · simp only [if_true, List.filterMap_cons, dayOf_disableOne, ih]

theorem attrDisabled_idem (N : JSString) (u : Bool) (root : List Element) :
    attrDisabled N u (attrDisabled N u root) = attrDisabled N u root := by
  simp only [attrDisabled_eq_map, List.map_map]
  apply List.map_congr_left
  intro el _
  exact disableOne_idem N u el

/-- C9: `runwindow_save` is idempotent: on every form, a second call with no change to the
controls in between stores the same value and leaves every control as the first call left it. -/
theorem save_idempotent (e : RunwindowForm) :
    runwindow_save (runwindow_save e) = runwindow_save e := by
  have hname : (runwindow_save e).name = e.name := by
    unfold runwindow_save; dsimp only; split_ifs <;> rfl
  have hcontrols : (runwindow_save e).controls =
      attrDisabled e.name
        (isChecked (fun el => isInput el && nameIs (e.name ++ lit "-use-schedule") el) e.controls)
        e.controls := by
    unfold runwindow_save; dsimp only; split_ifs <;> rfl
  rw [runwindow_save]
  simp only [hname, hcontrols, isChecked_attrDisabled, getVal_attrDisabled,
    daysOfWeek_attrDisabled, attrDisabled_idem]
  rfl

/-! ## Saving -/

/-- C7: with the enable toggle off, whatever the fields hold, `runwindow_save` stores the empty
string and disables the time fields, the day checkboxes and their parents; the toggle, the
values of the time fields, the checked state of every day checkbox and the `active` markers
stay as they were. -/
theorem save_toggle_off (N : JSString) (w : Widget) (hoff : w.useSchedule = false) :
    runwindow_save (render N w) =
      render N
        { w with
          value := []
          startDisabled := true
          endDisabled := true
          days := w.days.map fun d => { d with disabled := true, parentDisabled := true } } := by
  rw [save_render]
  simp [saved, savedValue, hoff]

/-- C7 at the widget `exampleOff`: toggle off, both time fields filled, two days checked. -/
theorem save_toggle_off_witness :
    exampleOff.useSchedule = false ∧
      runwindow_save (render (lit "runwindow") exampleOff) =
        render (lit "runwindow")
          { exampleOff with
            value := []
            startDisabled := true
            endDisabled := true
            days := exampleOff.days.map fun d =>
              { d with disabled := true, parentDisabled := true } } :=
  ⟨rfl, save_toggle_off (lit "runwindow") exampleOff rfl⟩

theorem mem_join (sep : JSString) (cs : List JSString) (x : Nat) (h : x ∈ join sep cs) :
    x ∈ sep ∨ ∃ c ∈ cs, x ∈ c := by
  induction cs with
  | nil => simp [join] at h
  | cons c rest ih =>
    cases rest with
    | nil => exact Or.inr ⟨c, List.mem_cons_self _ _, by simpa [join] using h⟩
    | cons d rest =>
      simp only [join, List.mem_append] at h
      rcases h with (h | h) | h
      · exact Or.inr ⟨c, List.mem_cons_self _ _, h⟩
      · exact Or.inl h
      · rcases ih h with h | ⟨y, hy, hx⟩
        · exact Or.inl h
        · exact Or.inr ⟨y, List.mem_cons_of_mem _ hy, hx⟩

theorem quoteChars_plain (s : JSString) (h : ∀ c ∈ s, isPlain c = true) :
    ∀ paired, quoteChars paired s = s := by
  induction s with
  | nil => intro paired; rfl
  | cons c s ih =>
    intro paired
    have hc := h c (List.mem_cons_self _ _)
    simp only [isPlain, Bool.and_eq_true, decide_eq_true_eq, Bool.not_eq_true',
      ne_eq] at hc
    obtain ⟨⟨⟨⟨h32, h34⟩, h92⟩, hlead⟩, htrail⟩ := hc
    have h8 : c ≠ 8 := by omega
    have h9 : c ≠ 9 := by omega
    have h10 : c ≠ 10 := by omega
    have h12 : c ≠ 12 := by omega
    have h13 : c ≠ 13 := by omega
    have hlt : ¬ c < 32 := by omega
    rw [quoteChars]
    simp [h8, h9, h10, h12, h13, h34, h92, hlt, hlead, htrail,
      ih (fun x hx => h x (List.mem_cons_of_mem _ hx))]

theorem QuoteJSONString_plain (s : JSString) (h : ∀ c ∈ s, isPlain c = true) :
    QuoteJSONString s = 34 :: (s ++ [34]) := by
  simp [QuoteJSONString, quoteChars_plain s h]

theorem isDayCode_plain (c : JSString) (h : isDayCode c) : ∀ x ∈ c, isPlain x = true := by
  obtain ⟨a, b, rfl, ha, hb⟩ := h
  simp only [isUpper, Bool.and_eq_true, decide_eq_true_eq] at ha hb
  intro x hx
  simp only [List.mem_cons, List.mem_singleton, List.mem_nil_iff, or_false] at hx
  simp only [isPlain, isLeadingSurrogate, isTrailingSurrogate, Bool.and_eq_true,
    decide_eq_true_eq, Bool.not_eq_true', Bool.and_eq_false_iff, decide_eq_false_iff_not]
  rcases hx with rfl | rfl <;> omega

theorem rule_plain (days : Week Bool) :
    ∀ x ∈ lit "FREQ=WEEKLY;INTERVAL=1;BYDAY=" ++ join (lit ",") (checkedCodes days),
      isPlain x = true := by
  intro x hx
  rcases List.mem_append.mp hx with h | h
  · have hall : ∀ y ∈ lit "FREQ=WEEKLY;INTERVAL=1;BYDAY=", isPlain y = true := by decide
    exact hall x h
  · rcases mem_join _ _ _ h with h | ⟨c, hc, hxc⟩
    · have : x = 44 := by simpa [lit] using h
      subst this
      decide
    · exact isDayCode_plain c (checkedCodes_isDayCode days c hc) x hxc

/-- The JSON text `runwindow_save` stores for a widget with the toggle on. -/
theorem savedValue_on (N : JSString) (w : Widget) (hN : 45 ∉ N) (hon : w.useSchedule = true) :
    savedValue N w =
      lit "[\x7b\"start_time\":" ++ QuoteJSONString w.startTime ++ lit ",\"end_time\":" ++
        QuoteJSONString w.endTime ++ lit ",\"rrule\":\"FREQ=WEEKLY;INTERVAL=1;BYDAY=" ++
        join (lit ",") (checkedCodes w.ui.days) ++ lit "\"\x7d]" := by
  have hk1 : QuoteJSONString (lit "start_time") = lit "\"start_time\"" := by decide
  have hk2 : QuoteJSONString (lit "end_time") = lit "\"end_time\"" := by decide
  have hk3 : QuoteJSONString (lit "rrule") = lit "\"rrule\"" := by decide
  simp only [savedValue, hon, if_true, daysOfWeek_eq N w hN, JSON.stringify, SerializeJSONObject,
    serializeProperties, join, List.map_cons, List.map_nil, hk1, hk2, hk3,
    QuoteJSONString_plain _ (rule_plain w.ui.days)]
  simp [lit]

/-- C4: with the toggle on, `runwindow_save` stores the JSON text of a one-element array
holding one object with the keys `start_time`, `end_time`, `rrule` in this order, whose values
are the start time, the end time and `FREQ=WEEKLY;INTERVAL=1;BYDAY=` followed by the checked day
codes in checkbox order, joined by commas (none when no day is checked). The two time strings
are written as JSON strings; when they hold no character that JSON escapes they stand in the
text as they are, as in the spec's example (08:00, 12:00, TU and TH). -/
theorem save_stores_record (N : JSString) (w : Widget) (hN : 45 ∉ N)
    (hon : w.useSchedule = true) :
    (runwindow_save (render N w)).value =
        lit "[\x7b\"start_time\":" ++ QuoteJSONString w.startTime ++ lit ",\"end_time\":" ++
          QuoteJSONString w.endTime ++ lit ",\"rrule\":\"FREQ=WEEKLY;INTERVAL=1;BYDAY=" ++
          join (lit ",") (checkedCodes w.ui.days) ++ lit "\"\x7d]" ∧
      ((∀ c ∈ w.startTime, isPlain c = true) → (∀ c ∈ w.endTime, isPlain c = true) →
        (runwindow_save (render N w)).value =
          lit "[\x7b\"start_time\":\"" ++ w.startTime ++ lit "\",\"end_time\":\"" ++
            w.endTime ++ lit "\",\"rrule\":\"FREQ=WEEKLY;INTERVAL=1;BYDAY=" ++
            join (lit ",") (checkedCodes w.ui.days) ++ lit "\"\x7d]") ∧
      (w.startTime = lit "08:00" → w.endTime = lit "12:00" →
        w.ui.days = ⟨false, true, false, true, false, false, false⟩ →
        (runwindow_save (render N w)).value =
          lit ("[\x7b\"start_time\":\"08:00\",\"end_time\":\"12:00\"," ++
            "\"rrule\":\"FREQ=WEEKLY;INTERVAL=1;BYDAY=TU,TH\"\x7d]")) := by
  have hv : (runwindow_save (render N w)).value = savedValue N w := by
    rw [save_render]; rfl
  rw [hv, savedValue_on N w hN hon]
  refine ⟨rfl, ?_, ?_⟩
  · intro hs ht
    rw [QuoteJSONString_plain _ hs, QuoteJSONString_plain _ ht]
    simp [lit]
  · intro hs ht hd
    rw [hs, ht, hd]
    decide

/-- C4 at the widget `exampleOn`, named `runwindow`. -/
theorem save_stores_record_witness :
    45 ∉ lit "runwindow" ∧ exampleOn.useSchedule = true ∧
      (runwindow_save (render (lit "runwindow") exampleOn)).value =
        lit "[\x7b\"start_time\":" ++ QuoteJSONString exampleOn.startTime ++
          lit ",\"end_time\":" ++ QuoteJSONString exampleOn.endTime ++
          lit ",\"rrule\":\"FREQ=WEEKLY;INTERVAL=1;BYDAY=" ++
          join (lit ",") (checkedCodes exampleOn.ui.days) ++ lit "\"\x7d]" :=
  ⟨by decide, rfl, (save_stores_record (lit "runwindow") exampleOn (by decide) rfl).1⟩

/-! ## Loading -/

theorem parse_nil : JSON.parse [] = none := rfl

theorem dataOf_parsed (v : JSString) (data : JSValue) (h : JSON.parse v = some data) :
    dataOf (some v) = Completion.normal data := by
  have hv : v ≠ [] := by
    rintro rfl
    rw [parse_nil] at h
    exact absurd h (by simp)
  simp [dataOf, hv, h]

/-- The function `runwindow_load` from the parsed data on, when the data is an array whose
first element is an object with string properties and the pattern matches the rule. -/
theorem loadedFrom_array (N : JSString) (w : Widget) (props : List (JSString × JSValue))
    (more : List JSValue) (s t r g : JSString)
    (hs : getOwn (lit "start_time") props = JSValue.string s)
    (ht : getOwn (lit "end_time") props = JSValue.string t)
    (hr : getOwn (lit "rrule") props = JSValue.string r) (hg : execBYDAY r = some g) :
    loadedFrom N w (JSValue.array (JSValue.object props :: more)) =
      Completion.normal (render N (loaded N s t (split 44 g) w)) := by
  simp [loadedFrom, ToBoolean, JSValue.index0, JSValue.getProp, hs, ht, hr, valString, ToString,
    hg]

/-- In a widget whose name has no hyphen, a load checks the days whose code is in
`enabledDays`. -/
theorem loaded_days (N s t : JSString) (en : List JSString) (w : Widget) (hN : 45 ∉ N) :
    loaded N s t en w =
      { value := w.value
        useSchedule := true
        startTime := s
        startDisabled := false
        endTime := t
        endDisabled := false
        days := dayCodes.map fun c => dayBox (decide (c ∈ en)) } := by
  have h : ∀ c ∈ dayCodes.toList, dayPiece N c = some c := fun c hc =>
    dayPiece_eq N c hN (isDayCode_no_hyphen c (dayCodes_isDayCode c hc))
  simp only [dayCodes, Week.toList, List.mem_cons, List.mem_singleton, List.mem_nil_iff,
    or_false, forall_eq_or_imp, forall_eq] at h
  obtain ⟨h1, h2, h3, h4, h5, h6, h7⟩ := h
  simp only [loaded, Week.map, dayCodes, h1, h2, h3, h4, h5, h6, h7, includes, dayBox]

theorem load_array (N : JSString) (w : Widget) (v : JSString)
    (props : List (JSString × JSValue)) (more : List JSValue) (s t r g : JSString) (hN : 45 ∉ N)
    (hparse : JSON.parse v = some (JSValue.array (JSValue.object props :: more)))
    (hs : getOwn (lit "start_time") props = JSValue.string s)
    (ht : getOwn (lit "end_time") props = JSValue.string t)
    (hr : getOwn (lit "rrule") props = JSValue.string r) (hg : execBYDAY r = some g) :
    runwindow_load (some v) (render N w) =
      Completion.normal (render N
        { value := w.value
          useSchedule := true
          startTime := s
          startDisabled := false
          endTime := t
          endDisabled := false
          days := dayCodes.map fun c => dayBox (decide (c ∈ split 44 g)) }) := by
  rw [load_render, dataOf_parsed v _ hparse, bind_normal,
    loadedFrom_array N w props more s t r g hs ht hr hg, loaded_days _ _ _ _ _ hN]

theorem parse_exampleValue :
    JSON.parse exampleValue = some (JSValue.array [JSValue.object
      [(lit "start_time", JSValue.string (lit "09:00")),
       (lit "end_time", JSValue.string (lit "17:00")),
       (lit "rrule", JSValue.string (lit "FREQ=WEEKLY;INTERVAL=1;BYDAY=MO,WE,FR"))]]) := rfl

/-- C5: when the value is a JSON array whose first record has string fields `start_time`,
`end_time` and an `rrule` that contains `BYDAY=`, `runwindow_load` (on a widget whose name has
no hyphen) sets the toggle on, enables the scheduling controls, stores the two time strings as
they are, and checks each day checkbox, with the `active` class on its parent, exactly when its
code is among the pieces that splitting group 1 of the first match on commas gives; on the
spec's example this is 09:00, 17:00 and exactly MO, WE, FR. -/
theorem load_record (N : JSString) (w : Widget) (v : JSString)
    (props : List (JSString × JSValue)) (more : List JSValue) (s t r : JSString) (hN : 45 ∉ N)
    (hparse : JSON.parse v = some (JSValue.array (JSValue.object props :: more)))
    (hs : getOwn (lit "start_time") props = JSValue.string s)
    (ht : getOwn (lit "end_time") props = JSValue.string t)
    (hr : getOwn (lit "rrule") props = JSValue.string r) (hby : lit "BYDAY=" <:+: r) :
    (∃ g, execBYDAY r = some g ∧
      runwindow_load (some v) (render N w) =
        Completion.normal (render N
          { value := w.value
            useSchedule := true
            startTime := s
            startDisabled := false
            endTime := t
            endDisabled := false
            days := dayCodes.map fun c => dayBox (decide (c ∈ split 44 g)) })) ∧
      runwindow_load (some exampleValue) (render N w) =
        Completion.normal (render N
          { value := w.value
            useSchedule := true
            startTime := lit "09:00"
            startDisabled := false
            endTime := lit "17:00"
            endDisabled := false
            days := ⟨dayBox true, dayBox false, dayBox true, dayBox false, dayBox true,
              dayBox false, dayBox false⟩ }) := by
  constructor
  · have hsome := (execBYDAY_isSome_iff r).mpr hby
    obtain ⟨g, hg⟩ := Option.isSome_iff_exists.mp hsome
    exact ⟨g, hg, load_array N w v props more s t r g hN hparse hs ht hr hg⟩
  · rw [load_array N w exampleValue _ [] (lit "09:00") (lit "17:00")
      (lit "FREQ=WEEKLY;INTERVAL=1;BYDAY=MO,WE,FR") (lit "MO,WE,FR") hN parse_exampleValue
      rfl rfl rfl (by decide)]
    have hsplit : split 44 (lit "MO,WE,FR") = [lit "MO", lit "WE", lit "FR"] := by decide
    rw [hsplit]
    rfl

/-- C5 at the spec's example value, loaded into the widget `exampleOff`. -/
theorem load_record_witness :
    45 ∉ lit "runwindow" ∧
      JSON.parse exampleValue = some (JSValue.array (JSValue.object
        [(lit "start_time", JSValue.string (lit "09:00")),
         (lit "end_time", JSValue.string (lit "17:00")),
         (lit "rrule", JSValue.string (lit "FREQ=WEEKLY;INTERVAL=1;BYDAY=MO,WE,FR"))] :: [])) ∧
      lit "BYDAY=" <:+: lit "FREQ=WEEKLY;INTERVAL=1;BYDAY=MO,WE,FR" ∧
      runwindow_load (some exampleValue) (render (lit "runwindow") exampleOff) =
        Completion.normal (render (lit "runwindow")
          { value := exampleOff.value
            useSchedule := true
            startTime := lit "09:00"
            startDisabled := false
            endTime := lit "17:00"
            endDisabled := false
            days := ⟨dayBox true, dayBox false, dayBox true, dayBox false, dayBox true,
              dayBox false, dayBox false⟩ }) :=
  ⟨by decide, rfl, ⟨lit "FREQ=WEEKLY;INTERVAL=1;", lit "MO,WE,FR", rfl⟩,
    (load_record (lit "runwindow") exampleOff exampleValue _ [] (lit "09:00") (lit "17:00")
      (lit "FREQ=WEEKLY;INTERVAL=1;BYDAY=MO,WE,FR") (by decide) parse_exampleValue rfl rfl rfl
      ⟨lit "FREQ=WEEKLY;INTERVAL=1;", lit "MO,WE,FR", rfl⟩).2⟩

/-- With the empty string as the value, the load leaves the widget `unloaded`. -/
theorem load_nil (N : JSString) (w : Widget) :
    runwindow_load (some []) (render N w) = Completion.normal (render N (unloaded w)) := by
  simp [load_render, dataOf, loadedFrom, ToBoolean]

/-- With no value, the load leaves the widget `unloaded`. -/
theorem load_none (N : JSString) (w : Widget) :
    runwindow_load none (render N w) = Completion.normal (render N (unloaded w)) := by
  simp [load_render, dataOf, loadedFrom, ToBoolean]

/-- C8: with the empty string, or with no value at all, `runwindow_load` completes without
parsing anything: it sets the toggle off and disables the two time fields, the day checkboxes
and their parents; the values of the time fields, the checked state and the `active` marker of
every day checkbox stay as they were. -/
theorem load_empty (N : JSString) (w : Widget) :
    runwindow_load (some []) (render N w) =
        Completion.normal (render N
          { w with
            useSchedule := false
            startDisabled := true
            endDisabled := true
            days := w.days.map fun d => { d with disabled := true, parentDisabled := true } }) ∧
      runwindow_load none (render N w) =
        Completion.normal (render N
          { w with
            useSchedule := false
            startDisabled := true
            endDisabled := true
            days := w.days.map fun d => { d with disabled := true, parentDisabled := true } }) := by
  exact ⟨load_nil N w, load_none N w⟩

/-- The widget state after saving a hyphen-free widget with the toggle on and loading the stored
value back. -/
theorem load_savedValue (M N : JSString) (w0 w : Widget) (hM : 45 ∉ M) (hN : 45 ∉ N)
    (hon : w0.useSchedule = true) :
    runwindow_load (some (savedValue M w0)) (render N w) =
      Completion.normal (render N
        { value := w.value
          useSchedule := true
          startTime := w0.startTime
          startDisabled := false
          endTime := w0.endTime
          endDisabled := false
          days := w0.ui.days.map dayBox }) := by
  have hval : savedValue M w0 =
      JSON.stringify
        [[(lit "start_time", some w0.startTime), (lit "end_time", some w0.endTime),
          (lit "rrule", some (lit "FREQ=WEEKLY;INTERVAL=1;BYDAY=" ++
            join (lit ",") (checkedCodes w0.ui.days)))]] := by
    simp only [savedValue, hon, if_true, daysOfWeek_eq M w0 hM]
  rw [hval]
  rw [load_array N w _ _ [] w0.startTime w0.endTime
    (lit "FREQ=WEEKLY;INTERVAL=1;BYDAY=" ++ join (lit ",") (checkedCodes w0.ui.days))
    (join (lit ",") (checkedCodes w0.ui.days)) hN
    (parse_stringify_record (lit "start_time") (lit "end_time") (lit "rrule") w0.startTime
      w0.endTime _)
    (by simp [getOwn, lit]) (by simp [getOwn, lit]) (by simp [getOwn, lit])
    (execBYDAY_rule _ (checkedCodes_isDayCode _))]
  have hinc : ∀ c ∈ dayCodes.toList,
      decide (c ∈ split 44 (join (lit ",") (checkedCodes w0.ui.days))) =
        decide (c ∈ checkedCodes w0.ui.days) := by
    intro c hc
    have := includes_split_join (checkedCodes w0.ui.days) c
      (isDayCode_ne_nil c (dayCodes_isDayCode c hc))
      (fun x hx => isDayCode_no_comma x (checkedCodes_isDayCode _ x hx))
    exact this
  simp only [dayCodes, Week.toList, List.mem_cons, List.mem_singleton, List.mem_nil_iff,
    or_false, forall_eq_or_imp, forall_eq] at hinc
  obtain ⟨h1, h2, h3, h4, h5, h6, h7⟩ := hinc
  have hdays : (dayCodes.map fun c =>
      dayBox (decide (c ∈ split 44 (join (lit ",") (checkedCodes w0.ui.days))))) =
      w0.ui.days.map dayBox := by
    conv_rhs => rw [← mem_checkedCodes w0.ui.days]
    simp only [Week.map, dayCodes, h1, h2, h3, h4, h5, h6, h7]
  rw [hdays]

/-- C1: for a widget (whose name has no hyphen) with the toggle on, whatever the two time
strings and whichever of the seven day checkboxes are checked (none included), the value that
`runwindow_save` stores, given to `runwindow_load` on a widget in any state at all (other
times, other days checked, toggle off, controls disabled), makes the load complete and leaves
the UIState of the widget that was saved: toggle on, the same start and end strings, exactly
the same checked days, with the scheduling controls enabled and the `active` markers in step.
The same holds when the load runs on the saved form itself. -/
theorem load_after_save (N : JSString) (w target : Widget) (hN : 45 ∉ N)
    (hon : w.useSchedule = true) :
    (runwindow_load (some (runwindow_save (render N w)).value) (render N target) =
        Completion.normal (render N
          { value := target.value
            useSchedule := true
            startTime := w.startTime
            startDisabled := false
            endTime := w.endTime
            endDisabled := false
            days := w.ui.days.map dayBox }) ∧
      Widget.ui
          { value := target.value
            useSchedule := true
            startTime := w.startTime
            startDisabled := false
            endTime := w.endTime
            endDisabled := false
            days := w.ui.days.map dayBox } = w.ui) ∧
    ∃ w2 : Widget,
      runwindow_load (some (runwindow_save (render N w)).value) (runwindow_save (render N w)) =
        Completion.normal (render N w2) ∧ w2.ui = w.ui := by
  have hv : (runwindow_save (render N w)).value = savedValue N w := by
    rw [save_render]; rfl
  refine ⟨⟨?_, ?_⟩, ?_⟩
  · rw [hv]
    exact load_savedValue N N w target hN hN hon
  · simp only [Widget.ui, hon, Week.map, dayBox]
  · rw [save_render]
    refine ⟨_, load_savedValue N N w (saved N w) hN hN hon, ?_⟩
    simp only [Widget.ui, hon, Week.map, dayBox]

/-- C1 at the widget `exampleOn`, named `runwindow`: its saved value, loaded into the widget
`exampleOther` (toggle off, other times, every day checked), gives back the toggle on, 08:00,
12:00 and exactly `TU` and `TH` checked. -/
theorem load_after_save_witness :
    45 ∉ lit "runwindow" ∧ exampleOn.useSchedule = true ∧
      runwindow_load (some (runwindow_save (render (lit "runwindow") exampleOn)).value)
          (render (lit "runwindow") exampleOther) =
        Completion.normal (render (lit "runwindow")
          { value := []
            useSchedule := true
            startTime := lit "08:00"
            startDisabled := false
            endTime := lit "12:00"
            endDisabled := false
            days := ⟨dayBox false, dayBox true, dayBox false, dayBox true, dayBox false,
              dayBox false, dayBox false⟩ }) :=
  ⟨by decide, rfl,
    (load_after_save (lit "runwindow") exampleOn exampleOther (by decide) rfl).1.1⟩

/-- C10: every value `runwindow_save` can store (the empty string, or the JSON text written for
a widget with the toggle on) loads into any widget, whatever its fields held before, and a
`runwindow_save` right after the load stores that same value again. Both widgets have names
without a hyphen. -/
theorem save_after_load (M N : JSString) (w0 w : Widget) (hM : 45 ∉ M) (hN : 45 ∉ N) :
    ∃ f : RunwindowForm,
      runwindow_load (some (runwindow_save (render M w0)).value) (render N w) =
        Completion.normal f ∧
      (runwindow_save f).value = (runwindow_save (render M w0)).value := by
  have hv : (runwindow_save (render M w0)).value = savedValue M w0 := by
    rw [save_render]; rfl
  rw [hv]
  cases hon : w0.useSchedule
  · have h0 : savedValue M w0 = [] := by simp [savedValue, hon]
    rw [h0]
    refine ⟨_, load_nil N w, ?_⟩
    rw [save_render]
    simp [saved, savedValue, render, unloaded]
  · refine ⟨_, load_savedValue M N w0 w hM hN hon, ?_⟩
    rw [save_render]
    simp only [render_value, saved, savedValue, if_true, daysOfWeek_eq M w0 hM,
      daysOfWeek_eq N _ hN, hon]
    have hd : (Widget.ui
        { value := w.value
          useSchedule := true
          startTime := w0.startTime
          startDisabled := false
          endTime := w0.endTime
          endDisabled := false
          days := w0.ui.days.map dayBox }).days = w0.ui.days := by
      simp only [Widget.ui, Week.map, dayBox]
    rw [hd]

/-- C10 at the value saved for `exampleOn`, loaded into the widget `exampleOff` of another
name. -/
theorem save_after_load_witness :
    45 ∉ lit "runwindow" ∧ 45 ∉ lit "other" ∧
      ∃ f : RunwindowForm,
        runwindow_load (some (runwindow_save (render (lit "runwindow") exampleOn)).value)
            (render (lit "other") exampleOff) = Completion.normal f ∧
        (runwindow_save f).value = (runwindow_save (render (lit "runwindow") exampleOn)).value :=
  ⟨by decide, by decide,
    save_after_load (lit "runwindow") (lit "other") exampleOn exampleOff (by decide) (by decide)⟩

/-! ## Errors -/

/-- C6: on a non-empty value, `runwindow_load` throws the `SyntaxError` of `JSON.parse` when the
value is not JSON, and a `TypeError` when the rule of the first record holds no `BYDAY=`; when
the value is JSON whose first record has string fields and a rule that holds `BYDAY=`, the call
completes. -/
theorem load_errors (e : RunwindowForm) :
    (∀ v : JSString, v ≠ [] → JSON.parse v = none →
      runwindow_load (some v) e = Completion.throw JSError.SyntaxError) ∧
    (∀ (v : JSString) (props : List (JSString × JSValue)) (more : List JSValue)
      (s t r : JSString),
      JSON.parse v = some (JSValue.array (JSValue.object props :: more)) →
      getOwn (lit "start_time") props = JSValue.string s →
      getOwn (lit "end_time") props = JSValue.string t →
      getOwn (lit "rrule") props = JSValue.string r →
      ¬ lit "BYDAY=" <:+: r →
      runwindow_load (some v) e = Completion.throw JSError.TypeError) ∧
    (∀ (v : JSString) (props : List (JSString × JSValue)) (more : List JSValue)
      (s t r : JSString),
      JSON.parse v = some (JSValue.array (JSValue.object props :: more)) →
      getOwn (lit "start_time") props = JSValue.string s →
      getOwn (lit "end_time") props = JSValue.string t →
      getOwn (lit "rrule") props = JSValue.string r →
      lit "BYDAY=" <:+: r →
      ∃ f : RunwindowForm, runwindow_load (some v) e = Completion.normal f) := by
  refine ⟨?_, ?_, ?_⟩
  · intro v hv hp
    simp [runwindow_load, dataOf, hv, hp]
  · intro v props more s t r hp hs ht hr hby
    have hg := (execBYDAY_eq_none_iff r).mpr hby
    simp [runwindow_load, dataOf_parsed v _ hp, ToBoolean, JSValue.index0, JSValue.getProp, hs,
      ht, hr, valString, ToString, hg]
  · intro v props more s t r hp hs ht hr hby
    obtain ⟨g, hg⟩ := Option.isSome_iff_exists.mp ((execBYDAY_isSome_iff r).mpr hby)
    simp [runwindow_load, dataOf_parsed v _ hp, ToBoolean, JSValue.index0, JSValue.getProp, hs,
      ht, hr, valString, ToString, hg]

/-- C6 at a truncated text, at a record without `BYDAY=` and at the spec's example value. -/
theorem load_errors_witness :
    runwindow_load (some (lit "[\x7b\"start_time\":")) (render (lit "runwindow") exampleOn) =
        Completion.throw JSError.SyntaxError ∧
      runwindow_load (some exampleNoByday) (render (lit "runwindow") exampleOn) =
        Completion.throw JSError.TypeError ∧
      ∃ f : RunwindowForm,
        runwindow_load (some exampleValue) (render (lit "runwindow") exampleOn) =
          Completion.normal f :=
  ⟨(load_errors (render (lit "runwindow") exampleOn)).1 (lit "[\x7b\"start_time\":")
      (by decide) rfl,
    (load_errors (render (lit "runwindow") exampleOn)).2.1 exampleNoByday
      [(lit "start_time", JSValue.string (lit "09:00")),
       (lit "end_time", JSValue.string (lit "17:00")),
       (lit "rrule", JSValue.string (lit "FREQ=WEEKLY;INTERVAL=1"))] []
      (lit "09:00") (lit "17:00") (lit "FREQ=WEEKLY;INTERVAL=1") rfl rfl rfl rfl (by decide),
    (load_errors (render (lit "runwindow") exampleOn)).2.2 exampleValue
      [(lit "start_time", JSValue.string (lit "09:00")),
       (lit "end_time", JSValue.string (lit "17:00")),
       (lit "rrule", JSValue.string (lit "FREQ=WEEKLY;INTERVAL=1;BYDAY=MO,WE,FR"))] []
      (lit "09:00") (lit "17:00") (lit "FREQ=WEEKLY;INTERVAL=1;BYDAY=MO,WE,FR")
      parse_exampleValue rfl rfl rfl ⟨lit "FREQ=WEEKLY;INTERVAL=1;", lit "MO,WE,FR", rfl⟩⟩

/-! ## The toggle, the value and the disabled controls -/

/-- The falsy values: `undefined`, `null`, `false`, the empty string and the numbers that
round to zero. -/
theorem ToBoolean_eq_false_iff (d : JSValue) :
    ToBoolean d = false ↔
      d = JSValue.undefined ∨ d = JSValue.null ∨ d = JSValue.bool false ∨
        d = JSValue.string [] ∨ ∃ n m e, d = JSValue.number n m e ∧ roundsToZero m e = true := by
  cases d with
  | undefined => simp [ToBoolean]
  | null => simp [ToBoolean]
  | bool b => cases b <;> simp [ToBoolean]
  | number n m e =>
    constructor
    · intro h
      refine Or.inr (Or.inr (Or.inr (Or.inr ⟨n, m, e, rfl, ?_⟩)))
      simpa [ToBoolean] using h
    · rintro (h | h | h | h | ⟨n2, m2, e2, h, hz⟩)
      · exact absurd h (by simp)
      · exact absurd h (by simp)
      · exact absurd h (by simp)
      · exact absurd h (by simp)
      · simp only [JSValue.number.injEq] at h
        obtain ⟨_, rfl, rfl⟩ := h
        simp [ToBoolean, hz]
  | string s => cases s <;> simp [ToBoolean]
  | array items => simp [ToBoolean]
  | object props => simp [ToBoolean]

theorem bind_eq_normal {α β : Type} (c : Completion α) (f : α → Completion β) (b : β) :
    c.bind f = Completion.normal b ↔ ∃ a, c = Completion.normal a ∧ f a = Completion.normal b := by
  cases c <;> simp [Completion.bind]

theorem loadedFrom_normal (N : JSString) (w : Widget) (data : JSValue) (f : RunwindowForm)
    (h : loadedFrom N w data = Completion.normal f) :
    (ToBoolean data = false ∧ f = render N (unloaded w)) ∨
      (ToBoolean data = true ∧ ∃ s t en, f = render N (loaded N s t en w)) := by
  unfold loadedFrom at h
  cases hb : ToBoolean data
  · left
    simp only [hb, Bool.not_false, if_true, Completion.normal.injEq] at h
    exact ⟨rfl, h.symm⟩
  · right
    simp only [hb, Bool.not_true, Bool.false_eq_true, if_false, bind_eq_normal] at h
    obtain ⟨_, _, _, _, _, _, _, _, _, _, _, _, s, _, t, _, rule, _, h⟩ := h
    split at h
    · exact absurd h (by simp)
    · rename_i g _
      simp only [Completion.normal.injEq] at h
      exact ⟨rfl, s, t, split 44 g, h.symm⟩

theorem unloaded_flags (w : Widget) :
    (unloaded w).useSchedule = false ∧ (unloaded w).allDisabled = true ∧
      (unloaded w).allEnabled = false := by
  simp [unloaded, Widget.allDisabled, Widget.allEnabled, Week.map, Week.toList]

theorem loaded_flags (N s t : JSString) (en : List JSString) (w : Widget) :
    (loaded N s t en w).useSchedule = true ∧ (loaded N s t en w).allDisabled = false ∧
      (loaded N s t en w).allEnabled = true := by
  simp [loaded, Widget.allDisabled, Widget.allEnabled, Week.map, Week.toList]

theorem saved_flags (N : JSString) (w : Widget) :
    ((saved N w).useSchedule = false ↔ (saved N w).value = []) ∧
      ((saved N w).useSchedule = false ↔ (saved N w).allDisabled = true) ∧
      ((saved N w).useSchedule = true ↔ (saved N w).allEnabled = true) := by
  cases h : w.useSchedule <;>
    simp [saved, savedValue, h, Widget.allDisabled, Widget.allEnabled, Week.map, Week.toList,
      stringify_ne_nil]

/-- C3, as the code has it: after a `runwindow_load` that completes, the toggle is off exactly
when the value was absent, empty or JSON for a falsy value (`null`, `false`, a zero, the empty
string), and exactly when the scheduling controls are disabled (they are all enabled when it is
on); after `runwindow_save`, the toggle is off exactly when the stored value is the empty
string, and exactly when the scheduling controls are disabled. -/
theorem toggle_off_iff (N : JSString) (w : Widget) :
    (∀ (value : Option JSString) (f : RunwindowForm),
      runwindow_load value (render N w) = Completion.normal f →
      ∃ w2 : Widget, f = render N w2 ∧
        (w2.useSchedule = false ↔
          (value = none ∨ value = some [] ∨
            ∃ v data, value = some v ∧ JSON.parse v = some data ∧ ToBoolean data = false)) ∧
        (w2.useSchedule = false ↔ w2.allDisabled = true) ∧
        (w2.useSchedule = true ↔ w2.allEnabled = true)) ∧
    (∃ w2 : Widget, runwindow_save (render N w) = render N w2 ∧
      (w2.useSchedule = false ↔ w2.value = []) ∧
      (w2.useSchedule = false ↔ w2.allDisabled = true) ∧
      (w2.useSchedule = true ↔ w2.allEnabled = true)) := by
  constructor
  · intro value f h
    rw [load_render, bind_eq_normal] at h
    obtain ⟨data, hdata, hf⟩ := h
    have hfalsy : ToBoolean data = false ↔
        (value = none ∨ value = some [] ∨
          ∃ v d, value = some v ∧ JSON.parse v = some d ∧ ToBoolean d = false) := by
      cases value with
      | none =>
        simp only [dataOf, Completion.normal.injEq] at hdata
        subst hdata
        simp [ToBoolean]
      | some v =>
        by_cases hv : v = []
        · subst hv
          simp only [dataOf, if_true, Completion.normal.injEq] at hdata
          subst hdata
          simp [ToBoolean]
        · simp only [dataOf, hv, if_false] at hdata
          cases hp : JSON.parse v with
          | none => rw [hp] at hdata; exact absurd hdata (by simp)
          | some d =>
            rw [hp] at hdata
            simp only [Completion.normal.injEq] at hdata
            subst hdata
            simp [hv, hp]
    rcases loadedFrom_normal N w data f hf with ⟨hb, rfl⟩ | ⟨hb, s, t, en, rfl⟩
    · refine ⟨unloaded w, rfl, ?_, ?_, ?_⟩
      · rw [← hfalsy]; simp [hb, (unloaded_flags w).1]
      · simp [(unloaded_flags w).1, (unloaded_flags w).2.1]
      · simp [(unloaded_flags w).1, (unloaded_flags w).2.2]
    · refine ⟨loaded N s t en w, rfl, ?_, ?_, ?_⟩
      · rw [← hfalsy]; simp [hb, (loaded_flags N s t en w).1]
      · simp [(loaded_flags N s t en w).1, (loaded_flags N s t en w).2.1]
      · simp [(loaded_flags N s t en w).1, (loaded_flags N s t en w).2.2]
  · exact ⟨saved N w, save_render N w, saved_flags N w⟩

/-- C3 at the text `0.0`, a zero: the load completes with the toggle off. -/
theorem toggle_off_iff_witness :
    runwindow_load (some (lit "0.0")) (render (lit "runwindow") exampleOn) =
        Completion.normal (render (lit "runwindow") (unloaded exampleOn)) ∧
      ∃ w2 : Widget, render (lit "runwindow") (unloaded exampleOn) = render (lit "runwindow") w2 ∧
        (w2.useSchedule = false ↔
          (some (lit "0.0") = none ∨ some (lit "0.0") = some [] ∨
            ∃ v data, some (lit "0.0") = some v ∧ JSON.parse v = some data ∧
              ToBoolean data = false)) ∧
        (w2.useSchedule = false ↔ w2.allDisabled = true) ∧
        (w2.useSchedule = true ↔ w2.allEnabled = true) :=
  ⟨by decide,
    (toggle_off_iff (lit "runwindow") exampleOn).1 (some (lit "0.0"))
      (render (lit "runwindow") (unloaded exampleOn)) (by decide)⟩

/-- C3, a value that is not the empty string and leaves the toggle off: `runwindow_load` of
the text `null` completes, turns the toggle off and disables the scheduling controls. -/
theorem load_null_toggle_off :
    runwindow_load (some (lit "null")) (render (lit "runwindow") exampleOn) =
        Completion.normal (render (lit "runwindow")
          { exampleOn with
            useSchedule := false
            startDisabled := true
            endDisabled := true
            days := exampleOn.days.map fun d =>
              { d with disabled := true, parentDisabled := true } }) ∧
      lit "null" ≠ [] := by
  decide

/-- C2, the failing input: in a widget named `run-window` with the toggle on and `TU` and `TH`
checked, the third piece of every checkbox name is `day`, and `runwindow_save` stores
`BYDAY=day,day`. -/
theorem save_hyphen_name :
    (runwindow_save (render (lit "run-window") exampleOn)).value =
      lit ("[\x7b\"start_time\":\"08:00\",\"end_time\":\"12:00\"," ++
        "\"rrule\":\"FREQ=WEEKLY;INTERVAL=1;BYDAY=day,day\"\x7d]") := by
  decide
end Runwindow
